import Mathlib

/-!
Verification development for the photo-organiser repository.

The repository contains two implementations of the same pipeline:
`src/photo_organizer.py` (Tkinter desktop app) and `src/pics.py`
(Streamlit web app).  Both walk a source tree, classify each file by
extension, convert raw image formats to JPG, deduplicate images by a
perceptual hash, and copy files into a date-based destination layout.

The embedding below models the pure decision logic of both
implementations.  External collaborators (PIL, rawpy, piexif, imagehash,
the OS file system) are modelled as oracle fields on the per-file record:
their outcomes (conversion success, hash value or failure, EXIF access
outcome, modification time, I/O failure during a copy) are inputs to the
model, exactly as they are inputs to the program at run time.  The
destination file system is a list of occupied paths; the error log is a
list of structured entries, one per `log_data['errors'].append` site.
-/

/-- Calendar timestamp as produced by Python `datetime`
(year, month, day, hour, minute, second). -/
structure PDateTime where
  year : Nat
  month : Nat
  day : Nat
  hour : Nat
  minute : Nat
  second : Nat
deriving DecidableEq, Repr

/-- Outcome of reading the EXIF DateTimeOriginal tag of a file, as seen by
`get_file_date`: the metadata read raised an exception (`failed`), the tag is
not present (`absent`), or the tag holds the raw string `s` (`found s`). -/
inductive ExifAccess where
  | failed : ExifAccess
  | absent : ExifAccess
  | found : String → ExifAccess
deriving DecidableEq, Repr

/-- `IMAGE_EXTENSIONS` from both source files. -/
def IMAGE_EXTENSIONS : List String := [".jpg", ".jpeg", ".png"]

/-- `CONVERTIBLE_IMAGE_EXTENSIONS` from both source files. -/
def CONVERTIBLE_IMAGE_EXTENSIONS : List String := [".cr2", ".raw", ".tif", ".tiff", ".heic"]

/-- `ALL_IMAGE_EXTENSIONS = IMAGE_EXTENSIONS + CONVERTIBLE_IMAGE_EXTENSIONS`. -/
def ALL_IMAGE_EXTENSIONS : List String := IMAGE_EXTENSIONS ++ CONVERTIBLE_IMAGE_EXTENSIONS

/-- `VIDEO_EXTENSIONS` from both source files. -/
def VIDEO_EXTENSIONS : List String := [".mp4", ".mov", ".avi", ".mkv", ".webm", ".flv"]

/-- Little-endian decimal digits of `n`, with explicit fuel so the definition
is structurally recursive (fuel `n` always suffices). -/
def digitsRev : Nat → Nat → List Nat
  | 0, _ => []
  | _, 0 => []
  | fuel + 1, n + 1 => ((n + 1) % 10) :: digitsRev fuel ((n + 1) / 10)

/-- Decimal rendering of a natural number, modelling Python `str(n)` for
positive `n` (the program only renders the positive counters `1, 2, ...`
and calendar years/months). -/
def natStr (n : Nat) : String := String.mk (((digitsRev n n).reverse).map Nat.digitChar)

/-- `datetime.strftime('%m')`: two-digit zero-padded month. -/
def monthStr (m : Nat) : String := if m < 10 then ("0") ++ natStr m else natStr m

/-- `datetime.strftime('%Y')`: the year in decimal. -/
def yearStr (y : Nat) : String := natStr y

/-- Split a character list at every occurrence of `c`
(model of Python `str.split` with a one-character separator). -/
def splitOnChar (c : Char) : List Char → List (List Char)
  | [] => [[]]
  | x :: xs =>
    let r := splitOnChar c xs
    if x = c then [] :: r
    else
      match r with
      | [] => [[x]]
      | y :: ys => (x :: y) :: ys

/-- Numeric value of a nonempty all-digit character list. -/
def charsToNat? (l : List Char) : Option Nat :=
  if l ≠ [] ∧ (∀ ch ∈ l, ch.isDigit) then
    some (l.foldl (fun a c => a * 10 + (c.toNat - 48)) 0)
  else none

/-- Model of `datetime.strptime(s, '%Y:%m:%d %H:%M:%S')` as used by
`get_file_date` in both source files: the string must be two colon-separated
triples of digit fields joined by one space; `%Y` is exactly four digits,
the other fields one or two digits, and the constructed `datetime` must have
its fields in range (month 1-12, day 1-31, hour 0-23, minute/second 0-59),
otherwise a `ValueError` is raised, modelled as `none`.  (CPython
additionally checks the day against the month length; that extra check is
not modelled and is not exercised by any claim.) -/
def parseExifDT (s : String) : Option PDateTime :=
  match splitOnChar (' ') s.data with
  | [d, t] =>
    match splitOnChar (':') d, splitOnChar (':') t with
    | [ys, ms, ds], [hs, mis, ss] =>
      match charsToNat? ys, charsToNat? ms, charsToNat? ds,
            charsToNat? hs, charsToNat? mis, charsToNat? ss with
      | some y, some mo, some da, some h, some mi, some se =>
        if ys.length = 4 ∧ ms.length ≤ 2 ∧ ds.length ≤ 2 ∧ hs.length ≤ 2
            ∧ mis.length ≤ 2 ∧ ss.length ≤ 2
            ∧ 1 ≤ y ∧ 1 ≤ mo ∧ mo ≤ 12 ∧ 1 ≤ da ∧ da ≤ 31
            ∧ h ≤ 23 ∧ mi ≤ 59 ∧ se ≤ 59 then
          some ⟨y, mo, da, h, mi, se⟩
        else none
      | _, _, _, _, _, _ => none
    | _, _ => none
  | _ => none

/-- `get_file_date` from `src/photo_organizer.py` lines 147-176 and
`src/pics.py` lines 57-80 (behaviourally identical).  Oracle inputs:
`isImage` is whether `file_path.lower().endswith(ALL_IMAGE_EXTENSIONS)`,
`acc` is the outcome of opening the file and looking for the
DateTimeOriginal EXIF tag, `mtime` is the filesystem modification time,
which is always available in this model (so the outer `except` that falls
back to `datetime.now()` is unreachable).  For images the embedded timestamp
is used when present and parseable; every metadata failure (`failed`,
`absent`, or an unparseable value) falls back to `mtime`. -/
def get_file_date (isImage : Bool) (acc : ExifAccess) (mtime : PDateTime) : PDateTime :=
  if isImage then
    match acc with
    | ExifAccess.found s =>
      match parseExifDT s with
      | some dt => dt
      | none => mtime
    | _ => mtime
  else mtime

/-- `CHUNK_SIZE = 1024 * 1024` from `src/photo_organizer.py` line 40. -/
def CHUNK_SIZE : Nat := 1024 * 1024

/-- Successive `fsrc.read(CHUNK_SIZE)` results: the chunks of `l` of size
`n`, with explicit fuel so the definition is structurally recursive
(fuel `l.length` suffices whenever `0 < n`). -/
def listChunksAux (n : Nat) : Nat → List Nat → List (List Nat)
  | 0, _ => []
  | _, [] => []
  | fuel + 1, l => (l.take n) :: listChunksAux n fuel (l.drop n)

/-- The chunk decomposition of a byte list, as produced by the read loop of
`copy_file_with_progress`. -/
def listChunks (n : Nat) (l : List Nat) : List (List Nat) := listChunksAux n l.length l

/-- The chunk-copy loop of `copy_file_with_progress`
(`src/photo_organizer.py` lines 52-61): after writing each chunk it computes
`percentage = (bytes_copied / total_size) * 100`; when `total_size` is zero
this division raises `ZeroDivisionError`, modelled as `Except.error ()`.
On success it returns the list of reported percentages in order. -/
def copyLoop (total : Nat) : List (List Nat) → Nat → Except Unit (List ℚ)
  | [], _ => Except.ok []
  | c :: cs, copied =>
    let copied2 := copied + c.length
    if total = 0 then Except.error ()
    else
      match copyLoop total cs copied2 with
      | Except.error e => Except.error e
      | Except.ok ps => Except.ok ((((copied2 : ℚ) / (total : ℚ)) * 100) :: ps)

/-- The percentages the loop reports when no exception occurs. -/
def pcts (total : Nat) : List (List Nat) → Nat → List ℚ
  | [], _ => []
  | c :: cs, copied =>
    let copied2 := copied + c.length
    (((copied2 : ℚ) / (total : ℚ)) * 100) :: pcts total cs copied2

/-- Result of one `copy_file_with_progress` call: whether it returned True,
the byte content written to the destination, the percentage values passed to
`current_file_progress_callback` in order, and whether an error entry was
appended to `log_data['errors']`. -/
structure CopyOutcome where
  success : Bool
  dst : List Nat
  progress : List ℚ
  errLogged : Bool
deriving DecidableEq, Repr

/-- `copy_file_with_progress` from `src/photo_organizer.py` lines 42-85,
over the byte content of the source file.  `ioFailAfter = some k` injects an
I/O exception after `k` chunks have been written (the `except` branch:
error appended, `callback(0, ...)`, returns False).  With no injected
failure the loop runs; if it raises `ZeroDivisionError` the same `except`
branch runs (one chunk was already written).  On success the final
`callback(100, ...)` fires, `shutil.copystat` copies stat metadata and the
best-effort EXIF transfer runs (neither affects the byte content, which in
this model is the concatenation of the written chunks). -/
def copy_file_with_progress (content : List Nat) (ioFailAfter : Option Nat) : CopyOutcome :=
  let cs := listChunks CHUNK_SIZE content
  match ioFailAfter with
  | some k =>
    { success := false
      dst := ((cs.take k).flatten)
      progress := pcts content.length (cs.take k) 0 ++ [0]
      errLogged := true }
  | none =>
    match copyLoop content.length cs 0 with
    | Except.error _ =>
      { success := false
        dst := ((cs.take 1).flatten)
        progress := [0]
        errLogged := true }
    | Except.ok ps =>
      { success := true
        dst := cs.flatten
        progress := ps ++ [100]
        errLogged := false }

/-- Which destination category a copy targeted (which branch of the
orchestrator performed it). -/
inductive Route where
  | mainTree : Route
  | videos : Route
  | suspectDup : Route
  | manualCheck : Route
  | errorsQ : Route
deriving DecidableEq, Repr

/-- One copy performed during a run: the branch that did it, the path copied
from, the resolved destination path, and whether the copy returned success. -/
structure CopyEvent where
  route : Route
  src : String
  dst : String
  ok : Bool
deriving DecidableEq, Repr

/-- Structured stand-ins for the strings appended to `log_data['errors']`,
one constructor per `append` site exercised by the model. -/
inductive ErrEntry where
  | copyFail : String → String → ErrEntry
  | convFail : String → ErrEntry
  | hashFail : String → ErrEntry
  | procErrorCopied : String → ErrEntry
  | procErrorCopyFailed : String → ErrEntry
deriving DecidableEq, Repr

/-- The `files_converted` counter dictionary. -/
structure ConvCounts where
  cr2 : Nat := 0
  raw : Nat := 0
  tif : Nat := 0
  jpeg : Nat := 0
  heic : Nat := 0
deriving DecidableEq, Repr

/-- One file yielded by the source-tree walk, together with the outcomes of
the external collaborators on it: `dir`/`stem`/`ext` decompose its path
(`ext` is `os.path.splitext(path)[1].lower()`), `convertOk` is whether
`convert_to_jpg` would succeed on it, `hashOf` is the value
`calculate_image_hash` returns on the processed file (`none` = hash
failure), `exifAccess` and `mtime` feed `get_file_date`, `copyFail` is
whether the content copy of this file to its resolved destination raises an
I/O error mid-copy (the destination file was already created by
`open(dst, 'wb')`), and `errCopyFail` is the same for the fallback copy into
the Errors folder. -/
structure SrcFile where
  dir : String
  stem : String
  ext : String
  convertOk : Bool
  hashOf : Option Nat
  exifAccess : ExifAccess
  mtime : PDateTime
  copyFail : Bool
  errCopyFail : Bool
deriving DecidableEq, Repr

/-- `os.path.join` of a directory and a file name. -/
def joinPath (d name : String) : String := d ++ ("/") ++ name

/-- The full source path of a file. -/
def filePath (f : SrcFile) : String := joinPath f.dir (f.stem ++ f.ext)

/-- Run configuration: destination root and the chosen structure
(`byYearOnly` is `structure_choice == 'YYYY'`). -/
structure Config where
  dest : String
  byYearOnly : Bool
deriving DecidableEq, Repr

/-- `destination_dir/year` or `destination_dir/year/month`
(`src/photo_organizer.py` lines 302-305, `src/pics.py` line 164). -/
def mainTargetDir (cfg : Config) (dt : PDateTime) : String :=
  if cfg.byYearOnly then joinPath cfg.dest (yearStr dt.year)
  else joinPath (joinPath cfg.dest (yearStr dt.year)) (monthStr dt.month)

/-- `Videos/year` or `Videos/year/month` under the destination root. -/
def videosTargetDir (cfg : Config) (dt : PDateTime) : String :=
  if cfg.byYearOnly then joinPath (joinPath cfg.dest ("Videos")) (yearStr dt.year)
  else joinPath (joinPath (joinPath cfg.dest ("Videos")) (yearStr dt.year)) (monthStr dt.month)

/-- The flat `Suspect Duplicates` folder. -/
def suspectDir (cfg : Config) : String := joinPath cfg.dest ("Suspect Duplicates")

/-- The flat `Manually Check` folder. -/
def manualDir (cfg : Config) : String := joinPath cfg.dest ("Manually Check")

/-- The flat `Errors` folder. -/
def errorsDir (cfg : Config) : String := joinPath cfg.dest ("Errors")

namespace PhotoOrganizer

/-- `os.path.splitext(file_path)[0] + '.jpg'` from `src/photo_organizer.py`
line 268: the transient converted artifact lives in the source directory,
at the original path with its extension replaced by `.jpg`. -/
def temp_jpg_path (f : SrcFile) : String := joinPath f.dir (f.stem ++ (".jpg"))

/-- The candidate file names tried by every collision loop of
`src/photo_organizer.py`: the desired name itself, then
`base_1.ext`, `base_2.ext`, ... (lines 283-288, 312-317, 339-344,
355-360, 371-376). -/
def candName (base ext : String) : Nat → String
  | 0 => base ++ ext
  | Nat.succ k => base ++ ("_") ++ natStr (k + 1) ++ ext

/-- The `while os.path.exists(...)` search: try candidates `k, k+1, ...`
against the occupied paths `fs` until one is free; `fuel` bounds the search
(fuel `fs.length + 1` always suffices, see `resolveName_not_mem`). -/
def searchFree (fs : List String) (dirPath base ext : String) : Nat → Nat → String
  | 0, k => joinPath dirPath (candName base ext k)
  | fuel + 1, k =>
    let c := joinPath dirPath (candName base ext k)
    if c ∈ fs then searchFree fs dirPath base ext fuel (k + 1) else c

/-- The destination resolver of the Tkinter implementation: the first
candidate path under `dirPath` not occupied in `fs`. -/
def resolveName (fs : List String) (dirPath base ext : String) : String :=
  searchFree fs dirPath base ext (fs.length + 1) 0

/-- The mutable run state: the fields of `log_data`, the run-scoped
`copied_file_hashes` set, the set of occupied destination paths, the list of
copies performed so far (in order), the number of files processed, and the
transient converted artifacts currently existing. -/
structure RunState where
  files_copied : Nat
  files_converted : ConvCounts
  videos_copied : Nat
  suspect_duplicates_copied : Nat
  manually_checked_files : Nat
  files_moved_to_errors : Nat
  errors : List ErrEntry
  seen : List Nat
  destFs : List String
  trace : List CopyEvent
  processed : Nat
  tempLeft : List String
deriving DecidableEq, Repr

/-- One `copy_file_with_progress(src, dst, ...)` call at the orchestrator
level: on failure the error entry is appended (line 83) and the partially
written destination file exists; on success the destination file exists.
Either way `dst` becomes occupied and the copy is recorded in the trace.
Returns the new state and the boolean result. -/
def modelCopy (st : RunState) (route : Route) (src dst : String) (fails : Bool) :
    RunState × Bool :=
  if fails then
    ({ st with errors := st.errors ++ [ErrEntry.copyFail src dst],
               destFs := dst :: st.destFs,
               trace := st.trace ++ [⟨route, src, dst, false⟩] }, false)
  else
    ({ st with destFs := dst :: st.destFs,
               trace := st.trace ++ [⟨route, src, dst, true⟩] }, true)

/-- The `except` branch of the per-file loop (`src/photo_organizer.py`
lines 366-388): resolve a collision-free name in the Errors folder, copy the
ORIGINAL source file there; on success bump `files_moved_to_errors` and log,
on failure log the failed fallback. -/
def errorBranch (cfg : Config) (st : RunState) (f : SrcFile) : RunState :=
  let dst := resolveName st.destFs (errorsDir cfg) f.stem f.ext
  let res := modelCopy st Route.errorsQ (filePath f) dst f.errCopyFail
  if res.2 then
    { res.1 with files_moved_to_errors := res.1.files_moved_to_errors + 1,
                 errors := res.1.errors ++ [ErrEntry.procErrorCopied (filePath f)] }
  else
    { res.1 with errors := res.1.errors ++ [ErrEntry.procErrorCopyFailed (filePath f)] }

/-- The per-format counter bump inside `convert_to_jpg`
(`src/photo_organizer.py` lines 93-120). -/
def bumpConv (c : ConvCounts) (ext : String) : ConvCounts :=
  if ext = (".cr2") then { c with cr2 := c.cr2 + 1 }
  else if ext = (".raw") then { c with raw := c.raw + 1 }
  else if ext = (".tif") ∨ ext = (".tiff") then { c with tif := c.tif + 1 }
  else if ext = (".heic") then { c with heic := c.heic + 1 }
  else c

/-- The duplicate short-circuit (`src/photo_organizer.py` lines 278-293):
resolve a collision-free name in Suspect Duplicates, copy the processed
file there, bump the duplicate counter on success, `continue`. -/
def dupBranch (cfg : Config) (st : RunState) (f : SrcFile)
    (procSrc procExt : String) : RunState :=
  let dst := resolveName st.destFs (suspectDir cfg) f.stem procExt
  let res := modelCopy st Route.suspectDup procSrc dst f.copyFail
  if res.2 then
    { res.1 with suspect_duplicates_copied := res.1.suspect_duplicates_copied + 1 }
  else res.1

/-- Image hashing, duplicate check, dating and main-tree copy
(`src/photo_organizer.py` lines 274-321).  `isConv` says whether the
processed path is the converted temporary. -/
def imageProcess (cfg : Config) (st : RunState) (f : SrcFile) (isConv : Bool) : RunState :=
  let procSrc := if isConv then temp_jpg_path f else filePath f
  let procExt := if isConv then (".jpg") else f.ext
  match f.hashOf with
  | none =>
    errorBranch cfg { st with errors := st.errors ++ [ErrEntry.hashFail procSrc] } f
  | some h =>
    if h ∈ st.seen then
      dupBranch cfg st f procSrc procExt
    else
      let st1 := { st with seen := h :: st.seen }
      let dt := get_file_date true f.exifAccess f.mtime
      let dst := resolveName st1.destFs (mainTargetDir cfg dt) f.stem procExt
      let res := modelCopy st1 Route.mainTree procSrc dst f.copyFail
      if res.2 then { res.1 with files_copied := res.1.files_copied + 1 } else res.1

/-- Video handling (`src/photo_organizer.py` lines 323-348).  The original
path is dated (a video extension is not an image extension, so
`get_file_date` goes straight to the modification time). -/
def videoBranch (cfg : Config) (st : RunState) (f : SrcFile) : RunState :=
  let dt := get_file_date false f.exifAccess f.mtime
  let dst := resolveName st.destFs (videosTargetDir cfg dt) f.stem f.ext
  let res := modelCopy st Route.videos (filePath f) dst f.copyFail
  if res.2 then { res.1 with videos_copied := res.1.videos_copied + 1 } else res.1

/-- Other files go to Manually Check (`src/photo_organizer.py`
lines 350-364). -/
def miscBranch (cfg : Config) (st : RunState) (f : SrcFile) : RunState :=
  let dst := resolveName st.destFs (manualDir cfg) f.stem f.ext
  let res := modelCopy st Route.manualCheck (filePath f) dst f.copyFail
  if res.2 then { res.1 with manually_checked_files := res.1.manually_checked_files + 1 }
  else res.1

/-- The `finally` cleanup (`src/photo_organizer.py` lines 390-396):
`if temp_jpg_path and os.path.exists(temp_jpg_path): os.remove(...)`
(removal succeeds in this model; the code logs a removal failure). -/
def cleanupTemp (st : RunState) (p : String) : RunState :=
  if p ∈ st.tempLeft then { st with tempLeft := st.tempLeft.erase p } else st

/-- One iteration of the per-file loop of `organize_photos_core`
(`src/photo_organizer.py` lines 252-398): bump the processed counter,
classify by extension, convert if needed (a failed conversion or hash raises
into the `except` branch), hash/dedup/copy, and always run the `finally`
cleanup of the transient artifact before moving on.  A successful
conversion writes the temporary (recorded in `tempLeft`); a failed one
writes nothing. -/
def processFile (cfg : Config) (st0 : RunState) (f : SrcFile) : RunState :=
  let st := { st0 with processed := st0.processed + 1 }
  let stMid :=
    if f.ext ∈ ALL_IMAGE_EXTENSIONS then
      if f.ext ∈ CONVERTIBLE_IMAGE_EXTENSIONS then
        if f.convertOk then
          let st1 := { st with files_converted := bumpConv st.files_converted f.ext,
                               tempLeft := temp_jpg_path f :: st.tempLeft }
          imageProcess cfg st1 f true
        else
          errorBranch cfg { st with errors := st.errors ++ [ErrEntry.convFail (filePath f)] } f
      else imageProcess cfg st f false
    else if f.ext ∈ VIDEO_EXTENSIONS then videoBranch cfg st f
    else miscBranch cfg st f
  if f.ext ∈ CONVERTIBLE_IMAGE_EXTENSIONS then cleanupTemp stMid (temp_jpg_path f)
  else stMid

/-- The whole per-file loop over the walked files, in walk order. -/
def runCore (cfg : Config) (st : RunState) (files : List SrcFile) : RunState :=
  files.foldl (processFile cfg) st

/-- The state at the start of a run: `log_data` reset, empty hash set, the
destination already holding the paths `initFs` (files present before the
run), nothing processed, no transient artifacts. -/
def initState (initFs : List String) : RunState :=
  { files_copied := 0, files_converted := {}, videos_copied := 0,
    suspect_duplicates_copied := 0, manually_checked_files := 0,
    files_moved_to_errors := 0, errors := [], seen := [], destFs := initFs,
    trace := [], processed := 0, tempLeft := [] }

/-- The content of the `photo_organizer_log.txt` summary written at run end
(`src/photo_organizer.py` lines 404-434): the per-category counts, the total
conversion count, and the full ordered error list. -/
structure Report where
  files_copied : Nat
  videos_copied : Nat
  suspect_duplicates_copied : Nat
  manually_checked_files : Nat
  files_moved_to_errors : Nat
  converted_total : Nat
  errors : List ErrEntry
deriving DecidableEq, Repr

/-- Build the summary from the final state. -/
def mkReport (st : RunState) : Report :=
  { files_copied := st.files_copied, videos_copied := st.videos_copied,
    suspect_duplicates_copied := st.suspect_duplicates_copied,
    manually_checked_files := st.manually_checked_files,
    files_moved_to_errors := st.files_moved_to_errors,
    converted_total := st.files_converted.cr2 + st.files_converted.raw +
      st.files_converted.tif + st.files_converted.jpeg + st.files_converted.heic,
    errors := st.errors }

/-- `organize_photos_core` of `src/photo_organizer.py` on a valid
source/destination pair: process every walked file, then unconditionally
write the summary report. -/
def organize_photos_core (cfg : Config) (initFs : List String)
    (files : List SrcFile) : RunState × Report :=
  let st := runCore cfg (initState initFs) files
  (st, mkReport st)

end PhotoOrganizer

namespace Pics

/-- `tempfile.gettempdir()` in the model. -/
def tmpDir : String := ("/tmp")

/-- `os.path.join(tempfile.gettempdir(), os.path.basename(file_path) + '.jpg')`
from `src/pics.py` line 146: the Streamlit implementation appends `.jpg` to
the full base name inside the system temp directory. -/
def temp_jpg_path (f : SrcFile) : String := joinPath tmpDir (f.stem ++ f.ext ++ (".jpg"))

/-- The mutable run state of the Streamlit implementation: the `log_data`
counters it actually updates, the error list, the `copied_file_hashes` set —
which holds the raw results of `calculate_image_hash`, including `None` —
the copies performed, the processed count and the transient artifacts. -/
structure PState where
  files_copied : Nat
  videos_copied : Nat
  suspect_duplicates_copied : Nat
  manually_checked_files : Nat
  files_moved_to_errors : Nat
  errors : List ErrEntry
  seenOpt : List (Option Nat)
  trace : List CopyEvent
  processed : Nat
  tempLeft : List String
deriving DecidableEq, Repr

/-- The fresh state at the start of a run. -/
def initState : PState :=
  { files_copied := 0, videos_copied := 0, suspect_duplicates_copied := 0,
    manually_checked_files := 0, files_moved_to_errors := 0, errors := [],
    seenOpt := [], trace := [], processed := 0, tempLeft := [] }

/-- The `except` branch of `src/pics.py` lines 187-194: `shutil.copy2` the
original file to `Errors/basename` (no collision loop); on success append
the log entry and bump the counter, on failure only log. -/
def errorGo (cfg : Config) (st : PState) (f : SrcFile) : PState :=
  let dst := joinPath (errorsDir cfg) (f.stem ++ f.ext)
  if f.errCopyFail then
    { st with errors := st.errors ++ [ErrEntry.procErrorCopyFailed (filePath f)] }
  else
    { st with files_moved_to_errors := st.files_moved_to_errors + 1,
              errors := st.errors ++ [ErrEntry.procErrorCopied (filePath f)],
              trace := st.trace ++ [⟨Route.errorsQ, filePath f, dst, true⟩] }

/-- Image handling of `src/pics.py` lines 144-169: hash the processed file
(`calculate_image_hash` logs and returns `None` on failure — the caller does
NOT check for `None`), test membership of the raw result in
`copied_file_hashes`, short-circuit equal results to Suspect Duplicates,
otherwise add the raw result to the set and `shutil.copy2` into the dated
tree (no collision loop anywhere).  A raising `copy2` lands in the `except`
branch. -/
def imageGo (cfg : Config) (st0 : PState) (f : SrcFile) (isConv : Bool) : PState :=
  let procSrc := if isConv then temp_jpg_path f else filePath f
  let procName := if isConv then f.stem ++ f.ext ++ (".jpg") else f.stem ++ f.ext
  let st := if f.hashOf = none then
              { st0 with errors := st0.errors ++ [ErrEntry.hashFail procSrc] }
            else st0
  if f.hashOf ∈ st.seenOpt then
    if f.copyFail then errorGo cfg st f
    else
      { st with suspect_duplicates_copied := st.suspect_duplicates_copied + 1,
                trace := st.trace ++
                  [⟨Route.suspectDup, procSrc, joinPath (suspectDir cfg) procName, true⟩] }
  else
    let st1 := { st with seenOpt := f.hashOf :: st.seenOpt }
    let dt := get_file_date true f.exifAccess f.mtime
    let dst := joinPath (mainTargetDir cfg dt) procName
    if f.copyFail then errorGo cfg st1 f
    else
      { st1 with files_copied := st1.files_copied + 1,
                 trace := st1.trace ++ [⟨Route.mainTree, procSrc, dst, true⟩] }

/-- Video handling of `src/pics.py` lines 171-180. -/
def videoGo (cfg : Config) (st : PState) (f : SrcFile) : PState :=
  let dt := get_file_date false f.exifAccess f.mtime
  let dst := joinPath (videosTargetDir cfg dt) (f.stem ++ f.ext)
  if f.copyFail then errorGo cfg st f
  else
    { st with videos_copied := st.videos_copied + 1,
              trace := st.trace ++ [⟨Route.videos, filePath f, dst, true⟩] }

/-- Other files go to Manually Check (`src/pics.py` lines 182-185). -/
def miscGo (cfg : Config) (st : PState) (f : SrcFile) : PState :=
  let dst := joinPath (manualDir cfg) (f.stem ++ f.ext)
  if f.copyFail then errorGo cfg st f
  else
    { st with manually_checked_files := st.manually_checked_files + 1,
              trace := st.trace ++ [⟨Route.manualCheck, filePath f, dst, true⟩] }

/-- The `finally` cleanup of `src/pics.py` lines 196-198. -/
def cleanup (st : PState) (p : String) : PState :=
  if p ∈ st.tempLeft then { st with tempLeft := st.tempLeft.erase p } else st

/-- One iteration of the per-file loop of `organize_photos_core` in
`src/pics.py` (lines 135-201): classify, convert if needed (failure raises
into the `except` branch; a successful conversion writes the temporary),
hash/dedup/copy, always run the `finally` cleanup, then bump the processed
count. -/
def processFile (cfg : Config) (st0 : PState) (f : SrcFile) : PState :=
  let stMid :=
    if f.ext ∈ ALL_IMAGE_EXTENSIONS then
      if f.ext ∈ CONVERTIBLE_IMAGE_EXTENSIONS then
        if f.convertOk then
          imageGo cfg { st0 with tempLeft := temp_jpg_path f :: st0.tempLeft } f true
        else
          errorGo cfg { st0 with errors := st0.errors ++ [ErrEntry.convFail (filePath f)] } f
      else imageGo cfg st0 f false
    else if f.ext ∈ VIDEO_EXTENSIONS then videoGo cfg st0 f
    else miscGo cfg st0 f
  let stClean :=
    if f.ext ∈ CONVERTIBLE_IMAGE_EXTENSIONS then cleanup stMid (temp_jpg_path f)
    else stMid
  { stClean with processed := stClean.processed + 1 }

/-- The per-file loop over the walked files, in walk order. -/
def runCore (cfg : Config) (st : PState) (files : List SrcFile) : PState :=
  files.foldl (processFile cfg) st

/-- `organize_photos_core` of `src/pics.py` on a valid source/destination
pair. -/
def organize_photos_core (cfg : Config) (files : List SrcFile) : PState :=
  runCore cfg initState files

end Pics

/-- An association list modelling the files of the source directory:
path to byte content. -/
def SrcFs : Type := List (String × List Nat)

/-- Does a path exist in the source tree, and with which content. -/
def fsLookup (fs : SrcFs) (p : String) : Option (List Nat) :=
  ((List.find? (fun e => e.1 == p) fs)).map Prod.snd

/-- Writing a file: `imageio.imwrite` / `PIL Image.save` truncate and
overwrite whatever is at the target path. -/
def fsWrite (fs : SrcFs) (p : String) (c : List Nat) : SrcFs :=
  (p, c) :: List.filter (fun e => e.1 != p) fs

/-- `os.remove`. -/
def fsRemove (fs : SrcFs) (p : String) : SrcFs :=
  List.filter (fun e => e.1 != p) fs

/-- The effect of `src/photo_organizer.py` lines 265-271 and 390-396 on the
SOURCE tree when a convertible image `f` is processed with a successful
conversion: `convert_to_jpg(file_path, temp_jpg_path, ...)` writes the
converted bytes at `temp_jpg_path f` (inside the source directory), and the
`finally` block removes that path.  Returns the tree after the write and
the tree after the cleanup. -/
def convertibleSourceEffect (fs : SrcFs) (f : SrcFile) (converted : List Nat) :
    SrcFs × SrcFs :=
  let p := PhotoOrganizer.temp_jpg_path f
  let mid := fsWrite fs p converted
  (mid, fsRemove mid p)

/-- A file on which every external collaborator succeeds: if it is an image
then (when convertible) it converts and it hashes, and its content copy does
not raise.  Such a file never reaches the `except` branch. -/
abbrev goodFile (f : SrcFile) : Prop :=
  (f.ext ∈ ALL_IMAGE_EXTENSIONS →
    ((f.ext ∈ CONVERTIBLE_IMAGE_EXTENSIONS → f.convertOk = true) ∧ f.hashOf ≠ none))
  ∧ f.copyFail = false

/-- The duplicate-ordering property of a Tkinter run (the conclusion of C1):
after processing a prefix `A` in whose seen-set the fingerprint `h` does not
yet occur, the image `fi` with fingerprint `h` is routed to the main
organized tree with a successful copy (not flagged as a duplicate of
itself), the main copied count goes up by one, `h` is recorded; and after
any further files `B`, the image `fj` with the same fingerprint `h` is
routed to Suspect Duplicates and leaves the main copied count unchanged. -/
def C1ConclTk (cfg : Config) (initFs : List String) (A B : List SrcFile)
    (fi fj : SrcFile) (h : Nat) : Prop :=
  let stA := PhotoOrganizer.runCore cfg (PhotoOrganizer.initState initFs) A
  let stI := PhotoOrganizer.processFile cfg stA fi
  let stB := PhotoOrganizer.runCore cfg stI B
  let stJ := PhotoOrganizer.processFile cfg stB fj
  (stI.trace.getLast?).map (fun ev => (ev.route, ev.ok)) = some (Route.mainTree, true)
  ∧ stI.files_copied = stA.files_copied + 1
  ∧ h ∈ stI.seen
  ∧ (stJ.trace.getLast?).map (fun ev => (ev.route, ev.ok)) = some (Route.suspectDup, true)
  ∧ stJ.files_copied = stB.files_copied

/-- The same duplicate-ordering property for a Streamlit run (C1). -/
def C1ConclPics (cfg : Config) (A B : List SrcFile) (fi fj : SrcFile) (h : Nat) : Prop :=
  let stA := Pics.runCore cfg Pics.initState A
  let stI := Pics.processFile cfg stA fi
  let stB := Pics.runCore cfg stI B
  let stJ := Pics.processFile cfg stB fj
  (stI.trace.getLast?).map (fun ev => (ev.route, ev.ok)) = some (Route.mainTree, true)
  ∧ stI.files_copied = stA.files_copied + 1
  ∧ (some h : Option Nat) ∈ stI.seenOpt
  ∧ (stJ.trace.getLast?).map (fun ev => (ev.route, ev.ok)) = some (Route.suspectDup, true)
  ∧ stJ.files_copied = stB.files_copied

/-- The conclusion of C4 for a Tkinter run over `A ++ [fbad] ++ B` in which
only `fbad` fails (a conversion failure): all files are processed, exactly
the failing file is routed to the Errors folder (with counter one), the
two error entries of the failure are the whole ordered error list, and the
run-end report is produced from the final counters. -/
def C4Concl (cfg : Config) (initFs : List String) (A B : List SrcFile)
    (fbad : SrcFile) : Prop :=
  let res := PhotoOrganizer.organize_photos_core cfg initFs (A ++ fbad :: B)
  res.1.files_moved_to_errors = 1
  ∧ res.1.processed = A.length + B.length + 1
  ∧ res.1.trace.length = A.length + B.length + 1
  ∧ (res.1.trace.get? A.length).map (fun ev => (ev.route, ev.ok))
      = some (Route.errorsQ, true)
  ∧ (∀ i, i ≠ A.length → ∀ ev : CopyEvent, res.1.trace.get? i = some ev →
      ev.ok = true ∧ ev.route ≠ Route.errorsQ)
  ∧ res.1.errors = [ErrEntry.convFail (filePath fbad), ErrEntry.procErrorCopied (filePath fbad)]
  ∧ res.2 = PhotoOrganizer.mkReport res.1
  ∧ res.2.files_moved_to_errors = 1

/-! ### General list lemmas -/

theorem aux_getLast_app {α : Type} (l : List α) (a : α) : (l ++ [a]).getLast? = some a := by
  induction l with
  | nil => rfl
  | cons x xs ih =>
    rw [List.cons_append]
    cases h : xs ++ [a] with
    | nil => exact absurd h (by simp)
    | cons y ys => rw [List.getLast?_cons_cons, ← h, ih]

/-! ### The chunked copy engine -/

theorem aux_listChunksAux_flatten (n : Nat) (hn : 0 < n) :
    ∀ (fuel : Nat) (l : List Nat), l.length ≤ fuel →
      (listChunksAux n fuel l).flatten = l := by
  intro fuel
  induction fuel with
  | zero =>
    intro l hl
    have : l = [] := List.length_eq_zero.mp (Nat.le_zero.mp hl)
    subst this
    rfl
  | succ fuel ih =>
    intro l hl
    cases l with
    | nil => rfl
    | cons x xs =>
      have hdrop : (List.drop n (x :: xs)).length ≤ fuel := by
        rw [List.length_drop]
        have hlen : (x :: xs).length ≤ fuel + 1 := hl
        omega
      calc (listChunksAux n (fuel + 1) (x :: xs)).flatten
          = List.take n (x :: xs) ++ (listChunksAux n fuel (List.drop n (x :: xs))).flatten :=
            rfl
        _ = List.take n (x :: xs) ++ List.drop n (x :: xs) := by rw [ih _ hdrop]
        _ = x :: xs := List.take_append_drop n (x :: xs)

theorem aux_listChunks_flatten (n : Nat) (hn : 0 < n) (l : List Nat) :
    (listChunks n l).flatten = l :=
  aux_listChunksAux_flatten n hn l.length l (Nat.le_refl _)

theorem aux_copyLoop_ok (total : Nat) (ht : total ≠ 0) :
    ∀ (cs : List (List Nat)) (a : Nat), copyLoop total cs a = Except.ok (pcts total cs a) := by
  intro cs
  induction cs with
  | nil => intro a; rfl
  | cons c cs ih => intro a; simp [copyLoop, pcts, ht, ih]

theorem aux_copy_none (content : List Nat) :
    copy_file_with_progress content none =
      { success := true
        dst := (listChunks CHUNK_SIZE content).flatten
        progress := pcts content.length (listChunks CHUNK_SIZE content) 0 ++ [100]
        errLogged := false } := by
  cases hc : content with
  | nil => rfl
  | cons x xs =>
    have ht : content.length ≠ 0 := by rw [hc]; simp
    rw [← hc]
    simp only [copy_file_with_progress, aux_copyLoop_ok content.length ht]

theorem aux_pcts_chain (N : Nat) (hN : 0 < N) :
    ∀ (cs : List (List Nat)) (a : Nat), a + cs.flatten.length ≤ N →
      List.Chain' (fun p q : ℚ => p ≤ q) (pcts N cs a ++ [(100 : ℚ)]) := by
  have hN' : (0 : ℚ) < (N : ℚ) := by exact_mod_cast hN
  have hmono : ∀ x y : Nat, x ≤ y →
      ((x : ℚ) / (N : ℚ)) * 100 ≤ ((y : ℚ) / (N : ℚ)) * 100 := by
    intro x y hxy
    gcongr
  have h100 : ∀ x : Nat, x ≤ N → ((x : ℚ) / (N : ℚ)) * 100 ≤ 100 := by
    intro x hx
    have h1 : (x : ℚ) / (N : ℚ) ≤ 1 := by
      rw [div_le_one hN']
      exact_mod_cast hx
    linarith
  intro cs
  induction cs with
  | nil => intro a _; exact List.chain'_singleton _
  | cons c cs ih =>
    intro a ha
    have ha' : (a + c.length) + cs.flatten.length ≤ N := by
      simp only [List.flatten_cons, List.length_append] at ha
      omega
    simp only [pcts, List.cons_append]
    refine List.chain'_cons'.mpr ⟨?_, ih (a + c.length) ha'⟩
    intro y hy
    cases cs with
    | nil =>
      simp only [pcts, List.nil_append, List.head?_cons, Option.mem_def,
        Option.some.injEq] at hy
      subst hy
      exact h100 (a + c.length) (by omega)
    | cons c2 cs2 =>
      simp only [pcts, List.cons_append, List.head?_cons, Option.mem_def,
        Option.some.injEq] at hy
      subst hy
      exact hmono (a + c.length) (a + c.length + c2.length) (by omega)

/-- C8: on every source file whose chunked copy succeeds, the destination
bytes are exactly the source bytes (the written chunks reassemble the
content), and the reported per-file progress values are monotonically
non-decreasing and end at exactly 100. -/
theorem spec_c8 (content : List Nat) (fail : Option Nat)
    (hs : (copy_file_with_progress content fail).success = true) :
    (copy_file_with_progress content fail).dst = content
    ∧ List.Chain' (fun p q : ℚ => p ≤ q) (copy_file_with_progress content fail).progress
    ∧ ((copy_file_with_progress content fail).progress).getLast? = some 100 := by
  have hchunk : (0 : Nat) < CHUNK_SIZE := by decide
  cases fail with
  | some k => simp [copy_file_with_progress] at hs
  | none =>
    rw [aux_copy_none]
    refine ⟨aux_listChunks_flatten CHUNK_SIZE hchunk content, ?_, aux_getLast_app _ _⟩
    by_cases hc : content = []
    · subst hc
      simp [listChunks, listChunksAux, pcts]
    · have hN : 0 < content.length := List.length_pos.mpr hc
      exact aux_pcts_chain content.length hN (listChunks CHUNK_SIZE content) 0
        (by rw [aux_listChunks_flatten CHUNK_SIZE hchunk content]; omega)

/-- C8 witness: a concrete 3-byte copy succeeds, reassembles the bytes and
reports monotone progress ending at 100. -/
theorem spec_c8_witness :
    (copy_file_with_progress [1, 2, 3] none).success = true
    ∧ ((copy_file_with_progress [1, 2, 3] none).dst = [1, 2, 3]
       ∧ List.Chain' (fun p q : ℚ => p ≤ q) (copy_file_with_progress [1, 2, 3] none).progress
       ∧ ((copy_file_with_progress [1, 2, 3] none).progress).getLast? = some 100) :=
  ⟨by decide, spec_c8 [1, 2, 3] none (by decide)⟩

/-- C10 counterexample: on a zero-byte source file the chunked copy does NOT
return failure — the first `read` returns nothing, the loop body (and with
it the unguarded division) never runs, no error entry is appended, and the
copy reports success. -/
theorem spec_c10_cx :
    (copy_file_with_progress [] none).success = true
    ∧ (copy_file_with_progress [] none).errLogged = false := by decide

/-- C10 (amended): the division by `total_size` inside the chunk loop is
unguarded — running the loop body on a chunk with `total_size = 0` raises
`ZeroDivisionError` — but for a real file the loop body only runs when the
file has at least one byte, so the division never raises: every copy with
no injected I/O failure succeeds, and a zero-byte file is copied
successfully with progress `[100]` and no error entry (so it is counted as
copied by the caller like any other file). -/
theorem spec_c10_thm :
    (∀ b : Nat, copyLoop 0 [[b]] 0 = Except.error ())
    ∧ (∀ content : List Nat, (copy_file_with_progress content none).success = true)
    ∧ copy_file_with_progress [] none =
        { success := true, dst := [], progress := [(100 : ℚ)], errLogged := false } := by
  refine ⟨fun b => by simp [copyLoop], fun content => ?_, by decide⟩
  rw [aux_copy_none]

/-! ### The temporal key resolver -/

/-- C5: for image files `get_file_date` prefers the embedded
DateTimeOriginal timestamp whenever it is present and parseable in the
`'%Y:%m:%d %H:%M:%S'` format — regardless of the modification time — and in
every other case (tag absent, metadata read raised, value unparseable) it
swallows the failure and falls back to the modification time; the concrete
embedded value `2021:03:15 10:00:00` parses to year 2021, month 03. -/
theorem spec_c5 :
    (∀ (s : String) (dt mt : PDateTime),
        parseExifDT s = some dt → get_file_date true (ExifAccess.found s) mt = dt)
    ∧ (∀ (s : String) (mt : PDateTime),
        parseExifDT s = none → get_file_date true (ExifAccess.found s) mt = mt)
    ∧ (∀ mt : PDateTime, get_file_date true ExifAccess.absent mt = mt)
    ∧ (∀ mt : PDateTime, get_file_date true ExifAccess.failed mt = mt)
    ∧ parseExifDT ("2021:03:15 10:00:00") = some ⟨2021, 3, 15, 10, 0, 0⟩ := by
  refine ⟨?_, ?_, ?_, ?_, by decide⟩
  · intro s dt mt hp
    simp [get_file_date, hp]
  · intro s mt hp
    simp [get_file_date, hp]
  · intro mt; rfl
  · intro mt; rfl

/-- C5 witness: a file with embedded timestamp `2021:03:15 10:00:00` and a
different modification time resolves to the embedded 2021-03 date. -/
theorem spec_c5_witness :
    parseExifDT ("2021:03:15 10:00:00") = some ⟨2021, 3, 15, 10, 0, 0⟩
    ∧ get_file_date true (ExifAccess.found ("2021:03:15 10:00:00"))
        ⟨1999, 12, 31, 23, 59, 59⟩ = ⟨2021, 3, 15, 10, 0, 0⟩ :=
  ⟨by decide, spec_c5.1 ("2021:03:15 10:00:00") ⟨2021, 3, 15, 10, 0, 0⟩
    ⟨1999, 12, 31, 23, 59, 59⟩ (by decide)⟩

/-! ### The transient artifact of the Tkinter implementation (C9) -/

theorem aux_fsLookup_write (fs : SrcFs) (p : String) (c : List Nat) :
    fsLookup (fsWrite fs p c) p = some c := by
  simp [fsLookup, fsWrite, List.find?]

theorem aux_find_filter_ne (p : String) :
    ∀ fs : SrcFs, List.find? (fun e => e.1 == p) (List.filter (fun e => e.1 != p) fs) = none := by
  intro fs
  induction fs with
  | nil => rfl
  | cons x xs ih =>
    by_cases hx : x.1 = p
    · have h1 : (x :: xs).filter (fun e => e.1 != p) = xs.filter (fun e => e.1 != p) := by
        simp [List.filter_cons, hx]
      rw [h1]
      exact ih
    · have h1 : (x :: xs).filter (fun e => e.1 != p) = x :: xs.filter (fun e => e.1 != p) := by
        simp [List.filter_cons, hx]
      rw [h1, List.find?_cons_of_neg _ (by simp [hx])]
      exact ih

theorem aux_fsLookup_remove (fs : SrcFs) (p : String) :
    fsLookup (fsRemove fs p) p = none := by
  simp [fsLookup, fsRemove, aux_find_filter_ne]

/-- C9: for a convertible image processed by the Tkinter implementation the
transient artifact path is the original path with its extension replaced by
`.jpg`, inside the source directory; if a distinct source file already
exists at that path, the conversion overwrites it with the converted bytes
and the `finally` cleanup then deletes it, so the run does not leave the
source tree unchanged. -/
theorem spec_c9 (fs : SrcFs) (f : SrcFile) (c0 converted : List Nat)
    (_hconv : f.ext ∈ CONVERTIBLE_IMAGE_EXTENSIONS)
    (hpre : fsLookup fs (PhotoOrganizer.temp_jpg_path f) = some c0) :
    PhotoOrganizer.temp_jpg_path f = joinPath f.dir (f.stem ++ (".jpg"))
    ∧ fsLookup (convertibleSourceEffect fs f converted).1
        (PhotoOrganizer.temp_jpg_path f) = some converted
    ∧ fsLookup (convertibleSourceEffect fs f converted).2
        (PhotoOrganizer.temp_jpg_path f) = none
    ∧ (convertibleSourceEffect fs f converted).2 ≠ fs := by
  refine ⟨rfl, aux_fsLookup_write fs _ converted, aux_fsLookup_remove _ _, ?_⟩
  intro heq
  have h1 : fsLookup (convertibleSourceEffect fs f converted).2
      (PhotoOrganizer.temp_jpg_path f) = none := aux_fsLookup_remove _ _
  rw [heq, hpre] at h1
  exact Option.noConfusion h1

/-- C9 witness: converting `src/a.cr2` while the distinct source file
`src/a.jpg` exists overwrites and then deletes `src/a.jpg`. -/
theorem spec_c9_witness :
    ((".cr2") ∈ CONVERTIBLE_IMAGE_EXTENSIONS
      ∧ fsLookup [(("src/a.jpg"), [7, 7])]
          (PhotoOrganizer.temp_jpg_path ⟨("src"), ("a"), (".cr2"), true, some 1,
            ExifAccess.absent, ⟨2020, 1, 1, 0, 0, 0⟩, false, false⟩) = some [7, 7])
    ∧ (fsLookup (convertibleSourceEffect [(("src/a.jpg"), [7, 7])]
          ⟨("src"), ("a"), (".cr2"), true, some 1, ExifAccess.absent,
            ⟨2020, 1, 1, 0, 0, 0⟩, false, false⟩ [9]).2
          (PhotoOrganizer.temp_jpg_path ⟨("src"), ("a"), (".cr2"), true, some 1,
            ExifAccess.absent, ⟨2020, 1, 1, 0, 0, 0⟩, false, false⟩) = none
        ∧ (convertibleSourceEffect [(("src/a.jpg"), [7, 7])]
            ⟨("src"), ("a"), (".cr2"), true, some 1, ExifAccess.absent,
              ⟨2020, 1, 1, 0, 0, 0⟩, false, false⟩ [9]).2 ≠ [(("src/a.jpg"), [7, 7])]) :=
  ⟨⟨by decide, by decide⟩,
    ((spec_c9 [(("src/a.jpg"), [7, 7])]
      ⟨("src"), ("a"), (".cr2"), true, some 1, ExifAccess.absent,
        ⟨2020, 1, 1, 0, 0, 0⟩, false, false⟩ [7, 7] [9] (by decide) (by decide)).2.2)⟩

/-! ### Decimal rendering and the collision-avoiding resolver -/

theorem aux_ofDigits_digitsRev :
    ∀ (fuel n : Nat), n ≤ fuel → Nat.ofDigits 10 (digitsRev fuel n) = n := by
  intro fuel
  induction fuel with
  | zero =>
    intro n hn
    have : n = 0 := Nat.le_zero.mp hn
    subst this
    rfl
  | succ fuel ih =>
    intro n hn
    cases n with
    | zero => rfl
    | succ m =>
      have hdiv : (m + 1) / 10 ≤ fuel := by
        have h1 : (m + 1) / 10 < m + 1 := Nat.div_lt_self (Nat.succ_pos m) (by norm_num)
        omega
      calc Nat.ofDigits 10 (digitsRev (fuel + 1) (m + 1))
          = ((m + 1) % 10 : Nat) + 10 * Nat.ofDigits 10 (digitsRev fuel ((m + 1) / 10)) := by
            rw [digitsRev, Nat.ofDigits_cons]
        _ = (m + 1) % 10 + 10 * ((m + 1) / 10) := by rw [ih _ hdiv]
        _ = m + 1 := Nat.mod_add_div (m + 1) 10

theorem aux_digitsRev_lt :
    ∀ (fuel n d : Nat), d ∈ digitsRev fuel n → d < 10 := by
  intro fuel
  induction fuel with
  | zero => intro n d hd; simp [digitsRev] at hd
  | succ fuel ih =>
    intro n d hd
    cases n with
    | zero => simp [digitsRev] at hd
    | succ m =>
      rw [digitsRev] at hd
      rcases List.mem_cons.mp hd with h | h
      · subst h
        exact Nat.mod_lt _ (by norm_num)
      · exact ih _ _ h

theorem aux_digitChar_inj :
    ∀ x : Nat, x < 10 → ∀ y : Nat, y < 10 → Nat.digitChar x = Nat.digitChar y → x = y := by
  decide

theorem aux_map_digitChar_inj :
    ∀ (l1 l2 : List Nat), (∀ x ∈ l1, x < 10) → (∀ x ∈ l2, x < 10) →
      l1.map Nat.digitChar = l2.map Nat.digitChar → l1 = l2 := by
  intro l1
  induction l1 with
  | nil =>
    intro l2 _ _ h
    cases l2 with
    | nil => rfl
    | cons y ys => simp at h
  | cons x xs ih =>
    intro l2 h1 h2 h
    cases l2 with
    | nil => simp at h
    | cons y ys =>
      simp only [List.map_cons, List.cons.injEq] at h
      have hx : x = y := aux_digitChar_inj x (h1 x (by simp)) y (h2 y (by simp)) h.1
      have hxs : xs = ys := ih ys (fun z hz => h1 z (by simp [hz]))
        (fun z hz => h2 z (by simp [hz])) h.2
      rw [hx, hxs]

theorem aux_natStr_inj {a b : Nat} (h : natStr a = natStr b) : a = b := by
  have hd : ((digitsRev a a).reverse).map Nat.digitChar
      = ((digitsRev b b).reverse).map Nat.digitChar := congrArg String.data h
  have hr : (digitsRev a a).reverse = (digitsRev b b).reverse :=
    aux_map_digitChar_inj _ _
      (fun x hx => aux_digitsRev_lt a a x (List.mem_reverse.mp hx))
      (fun x hx => aux_digitsRev_lt b b x (List.mem_reverse.mp hx)) hd
  have hdig : digitsRev a a = digitsRev b b := List.reverse_injective hr
  calc a = Nat.ofDigits 10 (digitsRev a a) := (aux_ofDigits_digitsRev a a (Nat.le_refl a)).symm
    _ = Nat.ofDigits 10 (digitsRev b b) := by rw [hdig]
    _ = b := aux_ofDigits_digitsRev b b (Nat.le_refl b)

theorem aux_data_append (s t : String) : (s ++ t).data = s.data ++ t.data := by
  cases s
  cases t
  rfl

theorem aux_string_ext {s t : String} (h : s.data = t.data) : s = t := by
  cases s
  cases t
  exact congrArg String.mk (by simpa using h)

theorem aux_candName_data (b e : String) (k : Nat) :
    (PhotoOrganizer.candName b e (k + 1)).data
      = b.data ++ '_' :: ((natStr (k + 1)).data ++ e.data) := by
  show ((b ++ ("_") ++ natStr (k + 1) ++ e)).data = _
  rw [aux_data_append, aux_data_append, aux_data_append]
  simp [List.append_assoc]

theorem aux_candName_inj (b e : String) :
    ∀ j k : Nat, PhotoOrganizer.candName b e j = PhotoOrganizer.candName b e k → j = k := by
  have hlen : ∀ j : Nat, PhotoOrganizer.candName b e 0 ≠ PhotoOrganizer.candName b e (j + 1) := by
    intro j h
    have hd := congrArg String.data h
    rw [aux_candName_data] at hd
    have hd0 : (PhotoOrganizer.candName b e 0).data = b.data ++ e.data := by
      show ((b ++ e)).data = _
      rw [aux_data_append]
    rw [hd0] at hd
    have := congrArg List.length hd
    simp at this
    omega
  intro j k h
  match j, k with
  | 0, 0 => rfl
  | 0, k + 1 => exact absurd h (hlen k)
  | j + 1, 0 => exact absurd h.symm (hlen j)
  | j + 1, k + 1 =>
    have hd := congrArg String.data h
    rw [aux_candName_data, aux_candName_data] at hd
    have h1 : ('_' :: ((natStr (j + 1)).data ++ e.data))
        = ('_' :: ((natStr (k + 1)).data ++ e.data)) := by
      exact List.append_cancel_left hd
    have h2 : (natStr (j + 1)).data ++ e.data = (natStr (k + 1)).data ++ e.data := by
      simpa using h1
    have h3 : (natStr (j + 1)).data = (natStr (k + 1)).data := List.append_cancel_right h2
    have h4 : natStr (j + 1) = natStr (k + 1) := aux_string_ext h3
    have := aux_natStr_inj h4
    omega

theorem aux_joinPath_inj (d : String) {n1 n2 : String}
    (h : joinPath d n1 = joinPath d n2) : n1 = n2 := by
  have hd := congrArg String.data h
  show n1 = n2
  have h1 : (d ++ ("/")).data ++ n1.data = (d ++ ("/")).data ++ n2.data := by
    have e1 : (joinPath d n1).data = (d ++ ("/")).data ++ n1.data := aux_data_append _ _
    have e2 : (joinPath d n2).data = (d ++ ("/")).data ++ n2.data := aux_data_append _ _
    rw [e1, e2] at hd
    exact hd
  exact aux_string_ext (List.append_cancel_left h1)

theorem aux_searchFree_mem (fs : List String) (d b e : String) :
    ∀ (fuel k : Nat), PhotoOrganizer.searchFree fs d b e fuel k ∈ fs →
      ∀ j, j ≤ fuel → joinPath d (PhotoOrganizer.candName b e (k + j)) ∈ fs := by
  intro fuel
  induction fuel with
  | zero =>
    intro k hmem j hj
    have : j = 0 := Nat.le_zero.mp hj
    subst this
    simpa [PhotoOrganizer.searchFree] using hmem
  | succ fuel ih =>
    intro k hmem j hj
    by_cases hc : joinPath d (PhotoOrganizer.candName b e k) ∈ fs
    · have hrec : PhotoOrganizer.searchFree fs d b e (fuel + 1) k
          = PhotoOrganizer.searchFree fs d b e fuel (k + 1) := by
        simp [PhotoOrganizer.searchFree, hc]
      rw [hrec] at hmem
      cases j with
      | zero => simpa using hc
      | succ j' =>
        have hstep := ih (k + 1) hmem j' (by omega)
        have harith : k + 1 + j' = k + (j' + 1) := by omega
        rwa [harith] at hstep
    · have hres : PhotoOrganizer.searchFree fs d b e (fuel + 1) k
          = joinPath d (PhotoOrganizer.candName b e k) := by
        simp [PhotoOrganizer.searchFree, hc]
      rw [hres] at hmem
      exact absurd hmem hc

theorem aux_cands_bound (fs : List String) (d b e : String) (m : Nat)
    (h : ∀ j, j < m → joinPath d (PhotoOrganizer.candName b e j) ∈ fs) :
    m ≤ fs.length := by
  classical
  have hnd : ((List.range m).map
      (fun j => joinPath d (PhotoOrganizer.candName b e j))).Nodup := by
    refine List.Nodup.map ?_ (List.nodup_range m)
    intro x y hxy
    exact aux_candName_inj b e x y (aux_joinPath_inj d hxy)
  have hsub : ∀ x ∈ (List.range m).map
      (fun j => joinPath d (PhotoOrganizer.candName b e j)), x ∈ fs := by
    intro x hx
    rcases List.mem_map.mp hx with ⟨j, hj, rfl⟩
    exact h j (List.mem_range.mp hj)
  have h1 : ((List.range m).map
      (fun j => joinPath d (PhotoOrganizer.candName b e j))).toFinset.card = m := by
    rw [List.toFinset_card_of_nodup hnd]
    simp
  have h2 : ((List.range m).map
      (fun j => joinPath d (PhotoOrganizer.candName b e j))).toFinset ⊆ fs.toFinset := by
    intro x hx
    rw [List.mem_toFinset] at hx ⊢
    exact hsub x hx
  have h3 : fs.toFinset.card ≤ fs.length := fs.toFinset_card_le
  have h4 := Finset.card_le_card h2
  omega

/-- The Tkinter destination resolver never returns an occupied path
(`while os.path.exists` exits only on a free name, and fuel
`fs.length + 1` always suffices by pigeonhole on the distinct candidate
names). -/
theorem resolveName_not_mem (fs : List String) (d b e : String) :
    PhotoOrganizer.resolveName fs d b e ∉ fs := by
  intro hmem
  have hall : ∀ j, j < fs.length + 2 →
      joinPath d (PhotoOrganizer.candName b e j) ∈ fs := by
    intro j hj
    have := aux_searchFree_mem fs d b e (fs.length + 1) 0 hmem j (by omega)
    simpa using this
  have := aux_cands_bound fs d b e (fs.length + 2) hall
  omega

theorem aux_searchFree_finds (fs : List String) (d b e : String) :
    ∀ (i fuel k : Nat), i ≤ fuel →
      (∀ j, j < i → joinPath d (PhotoOrganizer.candName b e (k + j)) ∈ fs) →
      joinPath d (PhotoOrganizer.candName b e (k + i)) ∉ fs →
      PhotoOrganizer.searchFree fs d b e fuel k
        = joinPath d (PhotoOrganizer.candName b e (k + i)) := by
  intro i
  induction i with
  | zero =>
    intro fuel k _ _ hout
    have h0 : joinPath d (PhotoOrganizer.candName b e k) ∉ fs := by simpa using hout
    cases fuel with
    | zero => simp [PhotoOrganizer.searchFree]
    | succ fuel => simp [PhotoOrganizer.searchFree, h0]
  | succ i ih =>
    intro fuel k hif hin hout
    obtain ⟨fuel', rfl⟩ : ∃ fuel', fuel = fuel' + 1 := ⟨fuel - 1, by omega⟩
    have h0 : joinPath d (PhotoOrganizer.candName b e k) ∈ fs := by
      simpa using hin 0 (by omega)
    have hrec : PhotoOrganizer.searchFree fs d b e (fuel' + 1) k
        = PhotoOrganizer.searchFree fs d b e fuel' (k + 1) := by
      simp [PhotoOrganizer.searchFree, h0]
    have h1 : ∀ j, j < i → joinPath d (PhotoOrganizer.candName b e (k + 1 + j)) ∈ fs := by
      intro j hj
      have hstep := hin (j + 1) (by omega)
      have harith : k + (j + 1) = k + 1 + j := by omega
      rwa [harith] at hstep
    have h2 : joinPath d (PhotoOrganizer.candName b e (k + 1 + i)) ∉ fs := by
      have harith : k + (i + 1) = k + 1 + i := by omega
      rwa [harith] at hout
    have hres := ih fuel' (k + 1) (by omega) h1 h2
    rw [hrec, hres]
    have harith : k + 1 + i = k + (i + 1) := by omega
    rw [harith]

/-- The Tkinter destination resolver tries `base.ext`, `base_1.ext`,
`base_2.ext`, ... in order and returns the first free candidate. -/
theorem resolveName_finds (fs : List String) (d b e : String) (k : Nat)
    (hin : ∀ j, j < k → joinPath d (PhotoOrganizer.candName b e j) ∈ fs)
    (hout : joinPath d (PhotoOrganizer.candName b e k) ∉ fs) :
    PhotoOrganizer.resolveName fs d b e = joinPath d (PhotoOrganizer.candName b e k) := by
  have hk : k ≤ fs.length := aux_cands_bound fs d b e k hin
  have := aux_searchFree_finds fs d b e k (fs.length + 1) 0 (by omega)
    (by intro j hj; simpa using hin j hj) (by simpa using hout)
  simpa using this

/-! ### Per-file step lemmas for the Tkinter orchestrator -/

namespace PhotoOrganizer

theorem aux_errorBranch_univ (cfg : Config) (st : RunState) (f : SrcFile) :
    (errorBranch cfg st f).processed = st.processed
    ∧ (errorBranch cfg st f).tempLeft = st.tempLeft
    ∧ (errorBranch cfg st f).seen = st.seen
    ∧ (errorBranch cfg st f).files_copied = st.files_copied
    ∧ (errorBranch cfg st f).trace = st.trace ++
        [⟨Route.errorsQ, filePath f,
          resolveName st.destFs (errorsDir cfg) f.stem f.ext, !f.errCopyFail⟩]
    ∧ (errorBranch cfg st f).destFs =
        resolveName st.destFs (errorsDir cfg) f.stem f.ext :: st.destFs := by
  cases herr : f.errCopyFail <;> simp [errorBranch, modelCopy, herr]

theorem aux_dupBranch_univ (cfg : Config) (st : RunState) (f : SrcFile)
    (procSrc procExt : String) :
    (dupBranch cfg st f procSrc procExt).processed = st.processed
    ∧ (dupBranch cfg st f procSrc procExt).tempLeft = st.tempLeft
    ∧ (dupBranch cfg st f procSrc procExt).seen = st.seen
    ∧ (dupBranch cfg st f procSrc procExt).files_copied = st.files_copied
    ∧ (dupBranch cfg st f procSrc procExt).files_moved_to_errors = st.files_moved_to_errors
    ∧ (dupBranch cfg st f procSrc procExt).trace = st.trace ++
        [⟨Route.suspectDup, procSrc,
          resolveName st.destFs (suspectDir cfg) f.stem procExt, !f.copyFail⟩]
    ∧ (dupBranch cfg st f procSrc procExt).destFs =
        resolveName st.destFs (suspectDir cfg) f.stem procExt :: st.destFs := by
  cases hcf : f.copyFail <;> simp [dupBranch, modelCopy, hcf]

theorem aux_videoBranch_univ (cfg : Config) (st : RunState) (f : SrcFile) :
    (videoBranch cfg st f).processed = st.processed
    ∧ (videoBranch cfg st f).tempLeft = st.tempLeft
    ∧ (videoBranch cfg st f).seen = st.seen
    ∧ (videoBranch cfg st f).files_moved_to_errors = st.files_moved_to_errors
    ∧ (videoBranch cfg st f).trace = st.trace ++
        [⟨Route.videos, filePath f,
          resolveName st.destFs
            (videosTargetDir cfg (get_file_date false f.exifAccess f.mtime)) f.stem f.ext,
          !f.copyFail⟩]
    ∧ (videoBranch cfg st f).destFs =
        resolveName st.destFs
          (videosTargetDir cfg (get_file_date false f.exifAccess f.mtime)) f.stem f.ext
          :: st.destFs := by
  cases hcf : f.copyFail <;> simp [videoBranch, modelCopy, hcf]

theorem aux_miscBranch_univ (cfg : Config) (st : RunState) (f : SrcFile) :
    (miscBranch cfg st f).processed = st.processed
    ∧ (miscBranch cfg st f).tempLeft = st.tempLeft
    ∧ (miscBranch cfg st f).seen = st.seen
    ∧ (miscBranch cfg st f).files_moved_to_errors = st.files_moved_to_errors
    ∧ (miscBranch cfg st f).trace = st.trace ++
        [⟨Route.manualCheck, filePath f,
          resolveName st.destFs (manualDir cfg) f.stem f.ext, !f.copyFail⟩]
    ∧ (miscBranch cfg st f).destFs =
        resolveName st.destFs (manualDir cfg) f.stem f.ext :: st.destFs := by
  cases hcf : f.copyFail <;> simp [miscBranch, modelCopy, hcf]

theorem aux_imageProcess_univ (cfg : Config) (st : RunState) (f : SrcFile) (b : Bool) :
    (imageProcess cfg st f b).processed = st.processed
    ∧ st.seen ⊆ (imageProcess cfg st f b).seen
    ∧ (imageProcess cfg st f b).tempLeft = st.tempLeft
    ∧ ∃ ev : CopyEvent,
        (imageProcess cfg st f b).trace = st.trace ++ [ev]
        ∧ (imageProcess cfg st f b).destFs = ev.dst :: st.destFs
        ∧ ev.dst ∉ st.destFs := by
  cases hh : f.hashOf with
  | none =>
    have hu := aux_errorBranch_univ cfg
      { st with errors := st.errors ++
          [ErrEntry.hashFail (if b then temp_jpg_path f else filePath f)] } f
    refine ⟨?_, ?_, ?_, ?_⟩
    · simp [imageProcess, hh, hu.1]
    · intro x hx
      simp [imageProcess, hh, hu.2.2.1]
      exact hx
    · simp [imageProcess, hh, hu.2.1]
    · refine ⟨⟨Route.errorsQ, filePath f,
        resolveName st.destFs (errorsDir cfg) f.stem f.ext, !f.errCopyFail⟩, ?_, ?_, ?_⟩
      · simp [imageProcess, hh, hu.2.2.2.2.1]
      · simp [imageProcess, hh, hu.2.2.2.2.2]
      · exact resolveName_not_mem _ _ _ _
  | some h =>
    by_cases hdup : h ∈ st.seen
    · have hu := aux_dupBranch_univ cfg st f (if b then temp_jpg_path f else filePath f)
        (if b then (".jpg") else f.ext)
      refine ⟨?_, ?_, ?_, ?_⟩
      · simp [imageProcess, hh, hdup, hu.1]
      · intro x hx
        simp [imageProcess, hh, hdup, hu.2.2.1]
        exact hx
      · simp [imageProcess, hh, hdup, hu.2.1]
      · refine ⟨⟨Route.suspectDup, if b then temp_jpg_path f else filePath f,
          resolveName st.destFs (suspectDir cfg) f.stem (if b then (".jpg") else f.ext),
          !f.copyFail⟩, ?_, ?_, ?_⟩
        · simp [imageProcess, hh, hdup, hu.2.2.2.2.2.1]
        · simp [imageProcess, hh, hdup, hu.2.2.2.2.2.2]
        · exact resolveName_not_mem _ _ _ _
    · refine ⟨?_, ?_, ?_, ?_⟩
      · cases hcf : f.copyFail <;> simp [imageProcess, modelCopy, hh, hdup, hcf]
      · intro x hx
        cases hcf : f.copyFail <;> simp [imageProcess, modelCopy, hh, hdup, hcf] <;>
          exact Or.inr hx
      · cases hcf : f.copyFail <;> simp [imageProcess, modelCopy, hh, hdup, hcf]
      · refine ⟨⟨Route.mainTree, if b then temp_jpg_path f else filePath f,
          resolveName st.destFs
            (mainTargetDir cfg (get_file_date true f.exifAccess f.mtime)) f.stem
            (if b then (".jpg") else f.ext), !f.copyFail⟩, ?_, ?_, ?_⟩
        · cases hcf : f.copyFail <;> simp [imageProcess, modelCopy, hh, hdup, hcf]
        · cases hcf : f.copyFail <;> simp [imageProcess, modelCopy, hh, hdup, hcf]
        · exact resolveName_not_mem _ _ _ _

end PhotoOrganizer

namespace PhotoOrganizer

theorem aux_cleanup_univ (st : RunState) (p : String) :
    (cleanupTemp st p).processed = st.processed
    ∧ (cleanupTemp st p).seen = st.seen
    ∧ (cleanupTemp st p).trace = st.trace
    ∧ (cleanupTemp st p).destFs = st.destFs
    ∧ (cleanupTemp st p).errors = st.errors
    ∧ (cleanupTemp st p).files_copied = st.files_copied
    ∧ (cleanupTemp st p).videos_copied = st.videos_copied
    ∧ (cleanupTemp st p).suspect_duplicates_copied = st.suspect_duplicates_copied
    ∧ (cleanupTemp st p).manually_checked_files = st.manually_checked_files
    ∧ (cleanupTemp st p).files_moved_to_errors = st.files_moved_to_errors := by
  unfold cleanupTemp
  split <;> simp

theorem aux_cleanup_tempLeft_nil (st : RunState) (p : String) (h : st.tempLeft = []) :
    (cleanupTemp st p).tempLeft = [] := by
  unfold cleanupTemp
  split <;> simp [h]

theorem aux_cleanup_tempLeft_self (st : RunState) (p : String) (h : st.tempLeft = [p]) :
    (cleanupTemp st p).tempLeft = [] := by
  have hmem : p ∈ st.tempLeft := by rw [h]; simp
  simp [cleanupTemp, hmem, h]

theorem aux_conv_sub_all {e : String} (h : e ∈ CONVERTIBLE_IMAGE_EXTENSIONS) :
    e ∈ ALL_IMAGE_EXTENSIONS := by
  simp only [ALL_IMAGE_EXTENSIONS, List.mem_append]
  exact Or.inr h

theorem aux_processFile_univ (cfg : Config) (st : RunState) (f : SrcFile) :
    (processFile cfg st f).processed = st.processed + 1
    ∧ st.seen ⊆ (processFile cfg st f).seen
    ∧ (st.tempLeft = [] → (processFile cfg st f).tempLeft = [])
    ∧ ∃ ev : CopyEvent,
        (processFile cfg st f).trace = st.trace ++ [ev]
        ∧ (processFile cfg st f).destFs = ev.dst :: st.destFs
        ∧ ev.dst ∉ st.destFs := by
  by_cases hImg : f.ext ∈ ALL_IMAGE_EXTENSIONS
  · by_cases hConv : f.ext ∈ CONVERTIBLE_IMAGE_EXTENSIONS
    · cases hok : f.convertOk
      · -- conversion fails: errors append, except branch, cleanup
        have hpf : processFile cfg st f =
            cleanupTemp (errorBranch cfg
              { st with processed := st.processed + 1,
                        errors := st.errors ++ [ErrEntry.convFail (filePath f)] } f)
              (temp_jpg_path f) := by
          simp [processFile, hImg, hConv, hok]
        set st2 : RunState :=
          { st with processed := st.processed + 1,
                    errors := st.errors ++ [ErrEntry.convFail (filePath f)] } with hst2
        have hu := aux_errorBranch_univ cfg st2 f
        have hc := aux_cleanup_univ (errorBranch cfg st2 f) (temp_jpg_path f)
        refine ⟨?_, ?_, ?_, ?_⟩
        · rw [hpf, hc.1, hu.1]
        · intro x hx
          rw [hpf, hc.2.1, hu.2.2.1]
          exact hx
        · intro h0
          rw [hpf]
          exact aux_cleanup_tempLeft_nil _ _ (by rw [hu.2.1]; simpa [hst2] using h0)
        · refine ⟨⟨Route.errorsQ, filePath f,
            resolveName st.destFs (errorsDir cfg) f.stem f.ext, !f.errCopyFail⟩, ?_, ?_, ?_⟩
          · rw [hpf, hc.2.2.1, hu.2.2.2.2.1]
          · rw [hpf, hc.2.2.2.1, hu.2.2.2.2.2]
          · exact resolveName_not_mem _ _ _ _
      · -- conversion succeeds: temp written, image pipeline, cleanup
        have hpf : processFile cfg st f =
            cleanupTemp (imageProcess cfg
              { st with processed := st.processed + 1,
                        files_converted := bumpConv st.files_converted f.ext,
                        tempLeft := temp_jpg_path f :: st.tempLeft } f true)
              (temp_jpg_path f) := by
          simp [processFile, hImg, hConv, hok]
        set st1 : RunState :=
          { st with processed := st.processed + 1,
                    files_converted := bumpConv st.files_converted f.ext,
                    tempLeft := temp_jpg_path f :: st.tempLeft } with hst1
        have hu := aux_imageProcess_univ cfg st1 f true
        have hc := aux_cleanup_univ (imageProcess cfg st1 f true) (temp_jpg_path f)
        refine ⟨?_, ?_, ?_, ?_⟩
        · rw [hpf, hc.1, hu.1]
        · intro x hx
          rw [hpf, hc.2.1]
          exact hu.2.1 (by simpa [hst1] using hx)
        · intro h0
          rw [hpf]
          refine aux_cleanup_tempLeft_self _ _ ?_
          rw [hu.2.2.1]
          simp [hst1, h0]
        · obtain ⟨ev, h1, h2, h3⟩ := hu.2.2.2
          refine ⟨ev, ?_, ?_, ?_⟩
          · rw [hpf, hc.2.2.1, h1]
          · rw [hpf, hc.2.2.2.1, h2]
          · simpa [hst1] using h3
    · -- native image, no conversion, no cleanup
      have hpf : processFile cfg st f =
          imageProcess cfg { st with processed := st.processed + 1 } f false := by
        simp [processFile, hImg, hConv]
      set st1 : RunState := { st with processed := st.processed + 1 } with hst1
      have hu := aux_imageProcess_univ cfg st1 f false
      refine ⟨?_, ?_, ?_, ?_⟩
      · rw [hpf, hu.1]
      · intro x hx
        rw [hpf]
        exact hu.2.1 (by simpa [hst1] using hx)
      · intro h0
        rw [hpf, hu.2.2.1]
        simpa [hst1] using h0
      · obtain ⟨ev, h1, h2, h3⟩ := hu.2.2.2
        exact ⟨ev, by rw [hpf, h1], by rw [hpf, h2], by simpa [hst1] using h3⟩
  · by_cases hVid : f.ext ∈ VIDEO_EXTENSIONS
    · have hNC : f.ext ∉ CONVERTIBLE_IMAGE_EXTENSIONS := fun hc => hImg (aux_conv_sub_all hc)
      have hpf : processFile cfg st f =
          videoBranch cfg { st with processed := st.processed + 1 } f := by
        simp [processFile, hImg, hVid, hNC]
      set st1 : RunState := { st with processed := st.processed + 1 } with hst1
      have hu := aux_videoBranch_univ cfg st1 f
      refine ⟨?_, ?_, ?_, ?_⟩
      · rw [hpf, hu.1]
      · intro x hx
        rw [hpf, hu.2.2.1]
        exact hx
      · intro h0
        rw [hpf, hu.2.1]
        simpa [hst1] using h0
      · refine ⟨⟨Route.videos, filePath f,
          resolveName st.destFs
            (videosTargetDir cfg (get_file_date false f.exifAccess f.mtime)) f.stem f.ext,
          !f.copyFail⟩, ?_, ?_, ?_⟩
        · rw [hpf, hu.2.2.2.2.1]
        · rw [hpf, hu.2.2.2.2.2]
        · exact resolveName_not_mem _ _ _ _
    · have hNC : f.ext ∉ CONVERTIBLE_IMAGE_EXTENSIONS := fun hc => hImg (aux_conv_sub_all hc)
      have hpf : processFile cfg st f =
          miscBranch cfg { st with processed := st.processed + 1 } f := by
        simp [processFile, hImg, hVid, hNC]
      set st1 : RunState := { st with processed := st.processed + 1 } with hst1
      have hu := aux_miscBranch_univ cfg st1 f
      refine ⟨?_, ?_, ?_, ?_⟩
      · rw [hpf, hu.1]
      · intro x hx
        rw [hpf, hu.2.2.1]
        exact hx
      · intro h0
        rw [hpf, hu.2.1]
        simpa [hst1] using h0
      · refine ⟨⟨Route.manualCheck, filePath f,
          resolveName st.destFs (manualDir cfg) f.stem f.ext, !f.copyFail⟩, ?_, ?_, ?_⟩
        · rw [hpf, hu.2.2.2.2.1]
        · rw [hpf, hu.2.2.2.2.2]
        · exact resolveName_not_mem _ _ _ _

end PhotoOrganizer

namespace PhotoOrganizer

theorem aux_runCore_nil (cfg : Config) (st : RunState) : runCore cfg st [] = st := rfl

theorem aux_runCore_cons (cfg : Config) (st : RunState) (f : SrcFile) (L : List SrcFile) :
    runCore cfg st (f :: L) = runCore cfg (processFile cfg st f) L := rfl

theorem aux_runCore_append (cfg : Config) (st : RunState) (L1 L2 : List SrcFile) :
    runCore cfg st (L1 ++ L2) = runCore cfg (runCore cfg st L1) L2 :=
  List.foldl_append _ _ _ _

theorem aux_runCore_processed (cfg : Config) (L : List SrcFile) :
    ∀ st : RunState, (runCore cfg st L).processed = st.processed + L.length := by
  induction L with
  | nil => intro st; simp [aux_runCore_nil]
  | cons f L ih =>
    intro st
    rw [aux_runCore_cons, ih, (aux_processFile_univ cfg st f).1]
    simp
    omega

theorem aux_runCore_seen_mono (cfg : Config) (L : List SrcFile) :
    ∀ st : RunState, st.seen ⊆ (runCore cfg st L).seen := by
  induction L with
  | nil => intro st; exact fun x hx => hx
  | cons f L ih =>
    intro st
    rw [aux_runCore_cons]
    exact fun x hx => ih (processFile cfg st f) ((aux_processFile_univ cfg st f).2.1 hx)

theorem aux_runCore_tempLeft (cfg : Config) (L : List SrcFile) :
    ∀ st : RunState, st.tempLeft = [] → (runCore cfg st L).tempLeft = [] := by
  induction L with
  | nil => intro st h; exact h
  | cons f L ih =>
    intro st h
    rw [aux_runCore_cons]
    exact ih (processFile cfg st f) ((aux_processFile_univ cfg st f).2.2.1 h)

theorem aux_runCore_trace_len (cfg : Config) (L : List SrcFile) :
    ∀ st : RunState, (runCore cfg st L).trace.length = st.trace.length + L.length := by
  induction L with
  | nil => intro st; simp [aux_runCore_nil]
  | cons f L ih =>
    intro st
    rw [aux_runCore_cons, ih]
    obtain ⟨ev, htr, _, _⟩ := (aux_processFile_univ cfg st f).2.2.2
    rw [htr]
    simp
    omega

end PhotoOrganizer

namespace PhotoOrganizer

theorem aux_step_main (cfg : Config) (st : RunState) (f : SrcFile) (h : Nat)
    (hImg : f.ext ∈ ALL_IMAGE_EXTENSIONS)
    (hConv : f.ext ∈ CONVERTIBLE_IMAGE_EXTENSIONS → f.convertOk = true)
    (hHash : f.hashOf = some h) (hFresh : h ∉ st.seen) (hCopy : f.copyFail = false) :
    (processFile cfg st f).files_copied = st.files_copied + 1
    ∧ (processFile cfg st f).seen = h :: st.seen
    ∧ (processFile cfg st f).errors = st.errors
    ∧ (processFile cfg st f).files_moved_to_errors = st.files_moved_to_errors
    ∧ (processFile cfg st f).trace = st.trace ++
        [⟨Route.mainTree,
          (if f.ext ∈ CONVERTIBLE_IMAGE_EXTENSIONS then temp_jpg_path f else filePath f),
          resolveName st.destFs
            (mainTargetDir cfg (get_file_date true f.exifAccess f.mtime)) f.stem
            (if f.ext ∈ CONVERTIBLE_IMAGE_EXTENSIONS then (".jpg") else f.ext), true⟩] := by
  by_cases hc : f.ext ∈ CONVERTIBLE_IMAGE_EXTENSIONS
  · have hok := hConv hc
    refine ⟨?_, ?_, ?_, ?_, ?_⟩ <;>
      simp [processFile, imageProcess, modelCopy, cleanupTemp, hImg, hc, hok,
        hHash, hFresh, hCopy]
  · refine ⟨?_, ?_, ?_, ?_, ?_⟩ <;>
      simp [processFile, imageProcess, modelCopy, hImg, hc, hHash, hFresh, hCopy]

theorem aux_step_main_fail (cfg : Config) (st : RunState) (f : SrcFile) (h : Nat)
    (hImg : f.ext ∈ ALL_IMAGE_EXTENSIONS)
    (hConv : f.ext ∈ CONVERTIBLE_IMAGE_EXTENSIONS → f.convertOk = true)
    (hHash : f.hashOf = some h) (hFresh : h ∉ st.seen) (hCopy : f.copyFail = true) :
    (processFile cfg st f).files_copied = st.files_copied
    ∧ (processFile cfg st f).files_moved_to_errors = st.files_moved_to_errors
    ∧ (processFile cfg st f).errors = st.errors ++
        [ErrEntry.copyFail
          (if f.ext ∈ CONVERTIBLE_IMAGE_EXTENSIONS then temp_jpg_path f else filePath f)
          (resolveName st.destFs
            (mainTargetDir cfg (get_file_date true f.exifAccess f.mtime)) f.stem
            (if f.ext ∈ CONVERTIBLE_IMAGE_EXTENSIONS then (".jpg") else f.ext))]
    ∧ (processFile cfg st f).trace = st.trace ++
        [⟨Route.mainTree,
          (if f.ext ∈ CONVERTIBLE_IMAGE_EXTENSIONS then temp_jpg_path f else filePath f),
          resolveName st.destFs
            (mainTargetDir cfg (get_file_date true f.exifAccess f.mtime)) f.stem
            (if f.ext ∈ CONVERTIBLE_IMAGE_EXTENSIONS then (".jpg") else f.ext), false⟩]
    ∧ (processFile cfg st f).seen = h :: st.seen := by
  by_cases hc : f.ext ∈ CONVERTIBLE_IMAGE_EXTENSIONS
  · have hok := hConv hc
    refine ⟨?_, ?_, ?_, ?_, ?_⟩ <;>
      simp [processFile, imageProcess, modelCopy, cleanupTemp, hImg, hc, hok,
        hHash, hFresh, hCopy]
  · refine ⟨?_, ?_, ?_, ?_, ?_⟩ <;>
      simp [processFile, imageProcess, modelCopy, hImg, hc, hHash, hFresh, hCopy]

theorem aux_step_dup (cfg : Config) (st : RunState) (f : SrcFile) (h : Nat)
    (hImg : f.ext ∈ ALL_IMAGE_EXTENSIONS)
    (hConv : f.ext ∈ CONVERTIBLE_IMAGE_EXTENSIONS → f.convertOk = true)
    (hHash : f.hashOf = some h) (hDup : h ∈ st.seen) :
    (processFile cfg st f).files_copied = st.files_copied
    ∧ (processFile cfg st f).seen = st.seen
    ∧ (processFile cfg st f).trace = st.trace ++
        [⟨Route.suspectDup,
          (if f.ext ∈ CONVERTIBLE_IMAGE_EXTENSIONS then temp_jpg_path f else filePath f),
          resolveName st.destFs (suspectDir cfg) f.stem
            (if f.ext ∈ CONVERTIBLE_IMAGE_EXTENSIONS then (".jpg") else f.ext),
          !f.copyFail⟩] := by
  by_cases hc : f.ext ∈ CONVERTIBLE_IMAGE_EXTENSIONS
  · have hok := hConv hc
    refine ⟨?_, ?_, ?_⟩ <;>
      cases hcf : f.copyFail <;>
      simp [processFile, imageProcess, dupBranch, modelCopy, cleanupTemp, hImg, hc, hok,
        hHash, hDup, hcf]
  · refine ⟨?_, ?_, ?_⟩ <;>
      cases hcf : f.copyFail <;>
      simp [processFile, imageProcess, dupBranch, modelCopy, hImg, hc, hHash, hDup, hcf]

theorem aux_step_conv_fail (cfg : Config) (st : RunState) (f : SrcFile)
    (hc : f.ext ∈ CONVERTIBLE_IMAGE_EXTENSIONS) (hok : f.convertOk = false)
    (herr : f.errCopyFail = false) :
    (processFile cfg st f).files_moved_to_errors = st.files_moved_to_errors + 1
    ∧ (processFile cfg st f).errors = st.errors ++
        [ErrEntry.convFail (filePath f), ErrEntry.procErrorCopied (filePath f)]
    ∧ (processFile cfg st f).trace = st.trace ++
        [⟨Route.errorsQ, filePath f,
          resolveName st.destFs (errorsDir cfg) f.stem f.ext, true⟩]
    ∧ (processFile cfg st f).seen = st.seen
    ∧ (processFile cfg st f).files_copied = st.files_copied := by
  have hImg : f.ext ∈ ALL_IMAGE_EXTENSIONS := aux_conv_sub_all hc
  refine ⟨?_, ?_, ?_, ?_, ?_⟩ <;>
    (simp [processFile, errorBranch, modelCopy, cleanupTemp, hImg, hc, hok, herr];
     try (split <;> rfl))

theorem aux_step_good (cfg : Config) (st : RunState) (f : SrcFile) (hg : goodFile f) :
    (processFile cfg st f).errors = st.errors
    ∧ (processFile cfg st f).files_moved_to_errors = st.files_moved_to_errors
    ∧ ∃ ev : CopyEvent,
        (processFile cfg st f).trace = st.trace ++ [ev]
        ∧ ev.ok = true ∧ ev.route ≠ Route.errorsQ := by
  obtain ⟨hgi, hCopy⟩ := hg
  by_cases hImg : f.ext ∈ ALL_IMAGE_EXTENSIONS
  · obtain ⟨hConv, hHash⟩ := hgi hImg
    cases hh : f.hashOf with
    | none => exact absurd hh hHash
    | some h =>
      by_cases hDup : h ∈ st.seen
      · have hs := aux_step_dup cfg st f h hImg hConv hh hDup
        obtain ⟨-, -, htr⟩ := hs
        have h1 : (processFile cfg st f).errors = st.errors := by
          by_cases hc : f.ext ∈ CONVERTIBLE_IMAGE_EXTENSIONS
          · have hok := hConv hc
            simp [processFile, imageProcess, dupBranch, modelCopy, cleanupTemp,
              hImg, hc, hok, hh, hDup, hCopy]
          · simp [processFile, imageProcess, dupBranch, modelCopy, hImg, hc, hh, hDup, hCopy]
        have h2 : (processFile cfg st f).files_moved_to_errors = st.files_moved_to_errors := by
          by_cases hc : f.ext ∈ CONVERTIBLE_IMAGE_EXTENSIONS
          · have hok := hConv hc
            simp [processFile, imageProcess, dupBranch, modelCopy, cleanupTemp,
              hImg, hc, hok, hh, hDup, hCopy]
          · simp [processFile, imageProcess, dupBranch, modelCopy, hImg, hc, hh, hDup, hCopy]
        refine ⟨h1, h2, ⟨_, htr, ?_, ?_⟩⟩
        · simp [hCopy]
        · simp
      · have hs := aux_step_main cfg st f h hImg hConv hh hDup hCopy
        exact ⟨hs.2.2.1, hs.2.2.2.1, ⟨_, hs.2.2.2.2, rfl, by simp⟩⟩
  · by_cases hVid : f.ext ∈ VIDEO_EXTENSIONS
    · have hNC : f.ext ∉ CONVERTIBLE_IMAGE_EXTENSIONS := fun hcx => hImg (aux_conv_sub_all hcx)
      refine ⟨?_, ?_, ⟨⟨Route.videos, filePath f,
        resolveName st.destFs
          (videosTargetDir cfg (get_file_date false f.exifAccess f.mtime)) f.stem f.ext,
        true⟩, ?_, rfl, by simp⟩⟩ <;>
        simp [processFile, videoBranch, modelCopy, hImg, hVid, hNC, hCopy]
    · have hNC : f.ext ∉ CONVERTIBLE_IMAGE_EXTENSIONS := fun hcx => hImg (aux_conv_sub_all hcx)
      refine ⟨?_, ?_, ⟨⟨Route.manualCheck, filePath f,
        resolveName st.destFs (manualDir cfg) f.stem f.ext, true⟩, ?_, rfl, by simp⟩⟩ <;>
        simp [processFile, miscBranch, modelCopy, hImg, hVid, hNC, hCopy]

end PhotoOrganizer

/-! ### Per-file step lemmas for the Streamlit orchestrator -/

namespace Pics

theorem aux_errorGo_tempLeft (cfg : Config) (st : PState) (f : SrcFile) :
    (errorGo cfg st f).tempLeft = st.tempLeft := by
  cases herr : f.errCopyFail <;> simp [errorGo, herr]

theorem aux_errorGo_seen (cfg : Config) (st : PState) (f : SrcFile) :
    (errorGo cfg st f).seenOpt = st.seenOpt := by
  cases herr : f.errCopyFail <;> simp [errorGo, herr]

theorem aux_imageGo_tempLeft (cfg : Config) (st : PState) (f : SrcFile) (b : Bool) :
    (imageGo cfg st f b).tempLeft = st.tempLeft := by
  by_cases hh : f.hashOf = none
  · by_cases hdup : (none : Option Nat) ∈ st.seenOpt <;>
      cases hcf : f.copyFail <;>
      simp [imageGo, hh, hdup, hcf, aux_errorGo_tempLeft]
  · by_cases hdup : f.hashOf ∈ st.seenOpt <;>
      cases hcf : f.copyFail <;>
      simp [imageGo, hh, hdup, hcf, aux_errorGo_tempLeft]

theorem aux_imageGo_seen_mono (cfg : Config) (st : PState) (f : SrcFile) (b : Bool) :
    st.seenOpt ⊆ (imageGo cfg st f b).seenOpt := by
  intro x hx
  by_cases hh : f.hashOf = none
  · by_cases hdup : (none : Option Nat) ∈ st.seenOpt <;>
      cases hcf : f.copyFail <;>
      simp [imageGo, hh, hdup, hcf, aux_errorGo_seen] <;>
      simp [hx]
  · by_cases hdup : f.hashOf ∈ st.seenOpt <;>
      cases hcf : f.copyFail <;>
      simp [imageGo, hh, hdup, hcf, aux_errorGo_seen] <;>
      simp [hx]

theorem aux_videoGo_tempLeft (cfg : Config) (st : PState) (f : SrcFile) :
    (videoGo cfg st f).tempLeft = st.tempLeft := by
  cases hcf : f.copyFail <;> simp [videoGo, hcf, aux_errorGo_tempLeft]

theorem aux_miscGo_tempLeft (cfg : Config) (st : PState) (f : SrcFile) :
    (miscGo cfg st f).tempLeft = st.tempLeft := by
  cases hcf : f.copyFail <;> simp [miscGo, hcf, aux_errorGo_tempLeft]

theorem aux_videoGo_seen (cfg : Config) (st : PState) (f : SrcFile) :
    (videoGo cfg st f).seenOpt = st.seenOpt := by
  cases hcf : f.copyFail <;> simp [videoGo, hcf, aux_errorGo_seen]

theorem aux_miscGo_seen (cfg : Config) (st : PState) (f : SrcFile) :
    (miscGo cfg st f).seenOpt = st.seenOpt := by
  cases hcf : f.copyFail <;> simp [miscGo, hcf, aux_errorGo_seen]

theorem aux_pics_cleanup_tempLeft_nil (st : PState) (p : String) (h : st.tempLeft = []) :
    (cleanup st p).tempLeft = [] := by
  unfold cleanup
  split <;> simp [h]

theorem aux_pics_cleanup_tempLeft_self (st : PState) (p : String) (h : st.tempLeft = [p]) :
    (cleanup st p).tempLeft = [] := by
  have hmem : p ∈ st.tempLeft := by rw [h]; simp
  simp [cleanup, hmem, h]

theorem aux_cleanup_seen (st : PState) (p : String) :
    (cleanup st p).seenOpt = st.seenOpt := by
  unfold cleanup
  split <;> simp

theorem aux_processFile_tempLeft (cfg : Config) (st : PState) (f : SrcFile)
    (h : st.tempLeft = []) : (processFile cfg st f).tempLeft = [] := by
  by_cases hImg : f.ext ∈ ALL_IMAGE_EXTENSIONS
  · by_cases hConv : f.ext ∈ CONVERTIBLE_IMAGE_EXTENSIONS
    · cases hok : f.convertOk
      · have hpf : processFile cfg st f =
            { cleanup (errorGo cfg
                { st with errors := st.errors ++ [ErrEntry.convFail (filePath f)] } f)
                (temp_jpg_path f) with
              processed := (cleanup (errorGo cfg
                { st with errors := st.errors ++ [ErrEntry.convFail (filePath f)] } f)
                (temp_jpg_path f)).processed + 1 } := by
          simp [processFile, hImg, hConv, hok]
        rw [hpf]
        show (cleanup (errorGo cfg _ f) (temp_jpg_path f)).tempLeft = []
        exact aux_pics_cleanup_tempLeft_nil _ _ (by rw [aux_errorGo_tempLeft]; exact h)
      · have hpf : processFile cfg st f =
            { cleanup (imageGo cfg { st with tempLeft := temp_jpg_path f :: st.tempLeft } f true)
                (temp_jpg_path f) with
              processed := (cleanup
                (imageGo cfg { st with tempLeft := temp_jpg_path f :: st.tempLeft } f true)
                (temp_jpg_path f)).processed + 1 } := by
          simp [processFile, hImg, hConv, hok]
        rw [hpf]
        show (cleanup (imageGo cfg _ f true) (temp_jpg_path f)).tempLeft = []
        refine aux_pics_cleanup_tempLeft_self _ _ ?_
        rw [aux_imageGo_tempLeft]
        simp [h]
    · have hpf : processFile cfg st f =
          { imageGo cfg st f false with
            processed := (imageGo cfg st f false).processed + 1 } := by
        simp [processFile, hImg, hConv]
      rw [hpf]
      show (imageGo cfg st f false).tempLeft = []
      rw [aux_imageGo_tempLeft]
      exact h
  · have hNC : f.ext ∉ CONVERTIBLE_IMAGE_EXTENSIONS := fun hcx => hImg (PhotoOrganizer.aux_conv_sub_all hcx)
    by_cases hVid : f.ext ∈ VIDEO_EXTENSIONS
    · have hpf : processFile cfg st f =
          { videoGo cfg st f with processed := (videoGo cfg st f).processed + 1 } := by
        simp [processFile, hImg, hVid, hNC]
      rw [hpf]
      show (videoGo cfg st f).tempLeft = []
      rw [aux_videoGo_tempLeft]
      exact h
    · have hpf : processFile cfg st f =
          { miscGo cfg st f with processed := (miscGo cfg st f).processed + 1 } := by
        simp [processFile, hImg, hVid, hNC]
      rw [hpf]
      show (miscGo cfg st f).tempLeft = []
      rw [aux_miscGo_tempLeft]
      exact h

theorem aux_processFile_seen_mono (cfg : Config) (st : PState) (f : SrcFile) :
    st.seenOpt ⊆ (processFile cfg st f).seenOpt := by
  intro x hx
  by_cases hImg : f.ext ∈ ALL_IMAGE_EXTENSIONS
  · by_cases hConv : f.ext ∈ CONVERTIBLE_IMAGE_EXTENSIONS
    · cases hok : f.convertOk
      · simp [processFile, hImg, hConv, hok, aux_cleanup_seen, aux_errorGo_seen]
        exact hx
      · simp [processFile, hImg, hConv, hok, aux_cleanup_seen]
        exact aux_imageGo_seen_mono cfg _ f true (by simpa using hx)
    · simp [processFile, hImg, hConv]
      exact aux_imageGo_seen_mono cfg st f false hx
  · have hNC : f.ext ∉ CONVERTIBLE_IMAGE_EXTENSIONS := fun hcx => hImg (PhotoOrganizer.aux_conv_sub_all hcx)
    by_cases hVid : f.ext ∈ VIDEO_EXTENSIONS
    · simp [processFile, hImg, hVid, hNC, aux_videoGo_seen]
      exact hx
    · simp [processFile, hImg, hVid, hNC, aux_miscGo_seen]
      exact hx

theorem aux_pics_runCore_cons (cfg : Config) (st : PState) (f : SrcFile) (L : List SrcFile) :
    runCore cfg st (f :: L) = runCore cfg (processFile cfg st f) L := rfl

theorem aux_pics_runCore_seen_mono (cfg : Config) (L : List SrcFile) :
    ∀ st : PState, st.seenOpt ⊆ (runCore cfg st L).seenOpt := by
  induction L with
  | nil => intro st; exact fun x hx => hx
  | cons f L ih =>
    intro st
    rw [aux_pics_runCore_cons]
    exact fun x hx => ih (processFile cfg st f) (aux_processFile_seen_mono cfg st f hx)

theorem aux_pics_runCore_tempLeft (cfg : Config) (L : List SrcFile) :
    ∀ st : PState, st.tempLeft = [] → (runCore cfg st L).tempLeft = [] := by
  induction L with
  | nil => intro st h; exact h
  | cons f L ih =>
    intro st h
    rw [aux_pics_runCore_cons]
    exact ih (processFile cfg st f) (aux_processFile_tempLeft cfg st f h)

theorem aux_pics_step_main (cfg : Config) (st : PState) (f : SrcFile) (h : Nat)
    (hImg : f.ext ∈ ALL_IMAGE_EXTENSIONS)
    (hConv : f.ext ∈ CONVERTIBLE_IMAGE_EXTENSIONS → f.convertOk = true)
    (hHash : f.hashOf = some h) (hFresh : f.hashOf ∉ st.seenOpt)
    (hCopy : f.copyFail = false) :
    (processFile cfg st f).files_copied = st.files_copied + 1
    ∧ (processFile cfg st f).seenOpt = some h :: st.seenOpt
    ∧ (processFile cfg st f).trace = st.trace ++
        [⟨Route.mainTree,
          (if f.ext ∈ CONVERTIBLE_IMAGE_EXTENSIONS then temp_jpg_path f else filePath f),
          joinPath (mainTargetDir cfg (get_file_date true f.exifAccess f.mtime))
            (if f.ext ∈ CONVERTIBLE_IMAGE_EXTENSIONS then f.stem ++ f.ext ++ (".jpg")
             else f.stem ++ f.ext), true⟩] := by
  have hF : (some h : Option Nat) ∉ st.seenOpt := by rw [← hHash]; exact hFresh
  by_cases hc : f.ext ∈ CONVERTIBLE_IMAGE_EXTENSIONS
  · have hok := hConv hc
    refine ⟨?_, ?_, ?_⟩ <;>
      simp [processFile, imageGo, cleanup, hImg, hc, hok, hHash, hF, hCopy]
  · refine ⟨?_, ?_, ?_⟩ <;>
      simp [processFile, imageGo, hImg, hc, hHash, hF, hCopy]

theorem aux_pics_step_dup (cfg : Config) (st : PState) (f : SrcFile)
    (hImg : f.ext ∈ ALL_IMAGE_EXTENSIONS)
    (hConv : f.ext ∈ CONVERTIBLE_IMAGE_EXTENSIONS → f.convertOk = true)
    (hNN : f.hashOf ≠ none) (hDup : f.hashOf ∈ st.seenOpt)
    (hCopy : f.copyFail = false) :
    (processFile cfg st f).files_copied = st.files_copied
    ∧ (processFile cfg st f).seenOpt = st.seenOpt
    ∧ (processFile cfg st f).trace = st.trace ++
        [⟨Route.suspectDup,
          (if f.ext ∈ CONVERTIBLE_IMAGE_EXTENSIONS then temp_jpg_path f else filePath f),
          joinPath (suspectDir cfg)
            (if f.ext ∈ CONVERTIBLE_IMAGE_EXTENSIONS then f.stem ++ f.ext ++ (".jpg")
             else f.stem ++ f.ext), true⟩] := by
  by_cases hc : f.ext ∈ CONVERTIBLE_IMAGE_EXTENSIONS
  · have hok := hConv hc
    refine ⟨?_, ?_, ?_⟩ <;>
      simp [processFile, imageGo, cleanup, hImg, hc, hok, hNN, hDup, hCopy]
  · refine ⟨?_, ?_, ?_⟩ <;>
      simp [processFile, imageGo, hImg, hc, hNN, hDup, hCopy]

end Pics

namespace PhotoOrganizer

theorem aux_runCore_good (cfg : Config) :
    ∀ (L : List SrcFile), (∀ g ∈ L, goodFile g) → ∀ st : RunState,
      (runCore cfg st L).errors = st.errors
      ∧ (runCore cfg st L).files_moved_to_errors = st.files_moved_to_errors
      ∧ ∃ evs : List CopyEvent,
          (runCore cfg st L).trace = st.trace ++ evs
          ∧ evs.length = L.length
          ∧ ∀ ev ∈ evs, ev.ok = true ∧ ev.route ≠ Route.errorsQ := by
  intro L
  induction L with
  | nil =>
    intro _ st
    exact ⟨rfl, rfl, [], by simp [aux_runCore_nil], rfl, by simp⟩
  | cons f L ih =>
    intro hg st
    obtain ⟨e1, e2, ev, htr, hok, hrt⟩ := aux_step_good cfg st f (hg f (by simp))
    obtain ⟨i1, i2, evs, itr, ilen, iprop⟩ :=
      ih (fun g hgm => hg g (by simp [hgm])) (processFile cfg st f)
    rw [aux_runCore_cons]
    refine ⟨by rw [i1, e1], by rw [i2, e2], ev :: evs, ?_, by simp [ilen], ?_⟩
    · rw [itr, htr]
      simp
    · intro e he
      rcases List.mem_cons.mp he with rfl | hmem
      · exact ⟨hok, hrt⟩
      · exact iprop e hmem

theorem aux_runCore_nodup (cfg : Config) (initFs : List String) (L : List SrcFile) :
    ∀ st : RunState,
      ((st.trace.map CopyEvent.dst).Nodup
       ∧ (∀ x ∈ st.trace.map CopyEvent.dst, x ∈ st.destFs ∧ x ∉ initFs)
       ∧ initFs ⊆ st.destFs) →
      (((runCore cfg st L).trace.map CopyEvent.dst).Nodup
       ∧ (∀ x ∈ (runCore cfg st L).trace.map CopyEvent.dst,
            x ∈ (runCore cfg st L).destFs ∧ x ∉ initFs)
       ∧ initFs ⊆ (runCore cfg st L).destFs) := by
  induction L with
  | nil => intro st h; exact h
  | cons f L ih =>
    intro st h
    rw [aux_runCore_cons]
    refine ih (processFile cfg st f) ?_
    obtain ⟨h1, h2, h3⟩ := h
    obtain ⟨ev, htr, hfs, hnm⟩ := (aux_processFile_univ cfg st f).2.2.2
    refine ⟨?_, ?_, ?_⟩
    · rw [htr, List.map_append]
      rw [List.nodup_append]
      refine ⟨h1, by simp, ?_⟩
      intro a ha hb
      simp at hb
      subst hb
      exact hnm (h2 _ ha).1
    · intro x hx
      rw [htr, List.map_append] at hx
      rcases List.mem_append.mp hx with hx | hx
      · obtain ⟨hin, hni⟩ := h2 x hx
        exact ⟨by rw [hfs]; exact List.mem_cons_of_mem _ hin, hni⟩
      · simp at hx
        subst hx
        exact ⟨by rw [hfs]; simp, fun hin => hnm (h3 hin)⟩
    · rw [hfs]
      exact fun x hx => List.mem_cons_of_mem _ (h3 hx)

end PhotoOrganizer

/-! ### Claim theorems -/

/-- C6: in both implementations every transient converted artifact is gone
by the time processing moves to the next file — a single per-file step
started with no leftover artifacts ends with none (on every exit path:
success, duplicate short-circuit, or failure, the `finally` cleanup runs),
and consequently a whole run leaves no artifacts behind. -/
theorem spec_c6 :
    (∀ (cfg : Config) (st : PhotoOrganizer.RunState) (f : SrcFile),
        st.tempLeft = [] → (PhotoOrganizer.processFile cfg st f).tempLeft = [])
    ∧ (∀ (cfg : Config) (initFs : List String) (files : List SrcFile),
        ((PhotoOrganizer.organize_photos_core cfg initFs files).1).tempLeft = [])
    ∧ (∀ (cfg : Config) (st : Pics.PState) (f : SrcFile),
        st.tempLeft = [] → (Pics.processFile cfg st f).tempLeft = [])
    ∧ (∀ (cfg : Config) (files : List SrcFile),
        (Pics.organize_photos_core cfg files).tempLeft = []) := by
  refine ⟨?_, ?_, ?_, ?_⟩
  · intro cfg st f hs
    exact (PhotoOrganizer.aux_processFile_univ cfg st f).2.2.1 hs
  · intro cfg initFs files
    exact PhotoOrganizer.aux_runCore_tempLeft cfg files (PhotoOrganizer.initState initFs) rfl
  · intro cfg st f hs
    exact Pics.aux_processFile_tempLeft cfg st f hs
  · intro cfg files
    exact Pics.aux_pics_runCore_tempLeft cfg files Pics.initState rfl

/-- C6 witness: a concrete per-file step of each implementation, started
with no artifacts, ends with none. -/
theorem spec_c6_witness :
    ((PhotoOrganizer.initState []).tempLeft = []
      ∧ (PhotoOrganizer.processFile ⟨("dest"), true⟩ (PhotoOrganizer.initState [])
          ⟨("s"), ("a"), (".cr2"), true, some 1, ExifAccess.absent,
            ⟨2020, 1, 1, 0, 0, 0⟩, false, false⟩).tempLeft = [])
    ∧ (Pics.initState.tempLeft = []
      ∧ (Pics.processFile ⟨("dest"), true⟩ Pics.initState
          ⟨("s"), ("a"), (".cr2"), true, some 1, ExifAccess.absent,
            ⟨2020, 1, 1, 0, 0, 0⟩, false, false⟩).tempLeft = []) :=
  ⟨⟨rfl, spec_c6.1 ⟨("dest"), true⟩ (PhotoOrganizer.initState [])
      ⟨("s"), ("a"), (".cr2"), true, some 1, ExifAccess.absent,
        ⟨2020, 1, 1, 0, 0, 0⟩, false, false⟩ rfl⟩,
   ⟨rfl, spec_c6.2.2.1 ⟨("dest"), true⟩ Pics.initState
      ⟨("s"), ("a"), (".cr2"), true, some 1, ExifAccess.absent,
        ⟨2020, 1, 1, 0, 0, 0⟩, false, false⟩ rfl⟩⟩

/-- C3 counterexample: a Tkinter run over a single healthy image whose
content copy fails leaves `files_moved_to_errors` at 0 and performs no copy
into the Errors folder — contrary to the claim that a transfer failure
routes the original into the error quarantine with its own counter.  The
failure is only logged and the main copied count stays 0. -/
theorem spec_c3_cx :
    (PhotoOrganizer.organize_photos_core ⟨("dest"), true⟩ []
        [⟨("s"), ("a"), (".jpg"), true, some 1, ExifAccess.absent,
          ⟨2020, 1, 1, 0, 0, 0⟩, true, false⟩]).1.files_moved_to_errors = 0
    ∧ (∀ ev ∈ (PhotoOrganizer.organize_photos_core ⟨("dest"), true⟩ []
        [⟨("s"), ("a"), (".jpg"), true, some 1, ExifAccess.absent,
          ⟨2020, 1, 1, 0, 0, 0⟩, true, false⟩]).1.trace, ev.route ≠ Route.errorsQ)
    ∧ (PhotoOrganizer.organize_photos_core ⟨("dest"), true⟩ []
        [⟨("s"), ("a"), (".jpg"), true, some 1, ExifAccess.absent,
          ⟨2020, 1, 1, 0, 0, 0⟩, true, false⟩]).1.files_copied = 0 := by
  decide

/-- C3 (amended): when the content copy of a fresh image to its resolved
main-tree destination fails, the failure is recorded in the run's error
list and the run continues with the next file, but the file is NOT routed
to the error quarantine: no Errors-folder copy happens, the error-folder
counter is unchanged, and the only effect on the counters is that the main
copied count does not increase (the fingerprint stays recorded). -/
theorem spec_c3_thm (cfg : Config) (st : PhotoOrganizer.RunState) (f : SrcFile) (h : Nat)
    (hImg : f.ext ∈ ALL_IMAGE_EXTENSIONS)
    (hConv : f.ext ∈ CONVERTIBLE_IMAGE_EXTENSIONS → f.convertOk = true)
    (hHash : f.hashOf = some h) (hFresh : h ∉ st.seen) (hCopy : f.copyFail = true) :
    (PhotoOrganizer.processFile cfg st f).files_copied = st.files_copied
    ∧ (PhotoOrganizer.processFile cfg st f).files_moved_to_errors = st.files_moved_to_errors
    ∧ (PhotoOrganizer.processFile cfg st f).errors = st.errors ++
        [ErrEntry.copyFail
          (if f.ext ∈ CONVERTIBLE_IMAGE_EXTENSIONS then PhotoOrganizer.temp_jpg_path f
           else filePath f)
          (PhotoOrganizer.resolveName st.destFs
            (mainTargetDir cfg (get_file_date true f.exifAccess f.mtime)) f.stem
            (if f.ext ∈ CONVERTIBLE_IMAGE_EXTENSIONS then (".jpg") else f.ext))]
    ∧ ((PhotoOrganizer.processFile cfg st f).trace.getLast?).map
        (fun ev => (ev.route, ev.ok)) = some (Route.mainTree, false)
    ∧ (PhotoOrganizer.processFile cfg st f).seen = h :: st.seen
    ∧ (∀ rest : List SrcFile,
        (PhotoOrganizer.runCore cfg (PhotoOrganizer.processFile cfg st f) rest).processed
          = st.processed + 1 + rest.length) := by
  obtain ⟨s1, s2, s3, s4, s5⟩ := PhotoOrganizer.aux_step_main_fail cfg st f h hImg hConv
    hHash hFresh hCopy
  refine ⟨s1, s2, s3, ?_, s5, ?_⟩
  · rw [s4, aux_getLast_app]
    rfl
  · intro rest
    rw [PhotoOrganizer.aux_runCore_processed, (PhotoOrganizer.aux_processFile_univ cfg st f).1]

/-- C3 witness: concrete instance of the amended transfer-failure claim. -/
theorem spec_c3_witness :
    (((".jpg") : String) ∈ ALL_IMAGE_EXTENSIONS
      ∧ (1 : Nat) ∉ (PhotoOrganizer.initState []).seen)
    ∧ ((PhotoOrganizer.processFile ⟨("dest"), true⟩ (PhotoOrganizer.initState [])
          ⟨("s"), ("a"), (".jpg"), true, some 1, ExifAccess.absent,
            ⟨2020, 1, 1, 0, 0, 0⟩, true, false⟩).files_copied
            = (PhotoOrganizer.initState []).files_copied
        ∧ (PhotoOrganizer.processFile ⟨("dest"), true⟩ (PhotoOrganizer.initState [])
          ⟨("s"), ("a"), (".jpg"), true, some 1, ExifAccess.absent,
            ⟨2020, 1, 1, 0, 0, 0⟩, true, false⟩).files_moved_to_errors
            = (PhotoOrganizer.initState []).files_moved_to_errors
        ∧ (PhotoOrganizer.processFile ⟨("dest"), true⟩ (PhotoOrganizer.initState [])
          ⟨("s"), ("a"), (".jpg"), true, some 1, ExifAccess.absent,
            ⟨2020, 1, 1, 0, 0, 0⟩, true, false⟩).errors
            = (PhotoOrganizer.initState []).errors ++
              [ErrEntry.copyFail
                (if ((".jpg") : String) ∈ CONVERTIBLE_IMAGE_EXTENSIONS then
                  PhotoOrganizer.temp_jpg_path
                    ⟨("s"), ("a"), (".jpg"), true, some 1, ExifAccess.absent,
                      ⟨2020, 1, 1, 0, 0, 0⟩, true, false⟩
                 else filePath ⟨("s"), ("a"), (".jpg"), true, some 1, ExifAccess.absent,
                      ⟨2020, 1, 1, 0, 0, 0⟩, true, false⟩)
                (PhotoOrganizer.resolveName (PhotoOrganizer.initState []).destFs
                  (mainTargetDir ⟨("dest"), true⟩
                    (get_file_date true ExifAccess.absent ⟨2020, 1, 1, 0, 0, 0⟩))
                  ("a")
                  (if ((".jpg") : String) ∈ CONVERTIBLE_IMAGE_EXTENSIONS then (".jpg")
                   else (".jpg")))]
        ∧ ((PhotoOrganizer.processFile ⟨("dest"), true⟩ (PhotoOrganizer.initState [])
          ⟨("s"), ("a"), (".jpg"), true, some 1, ExifAccess.absent,
            ⟨2020, 1, 1, 0, 0, 0⟩, true, false⟩).trace.getLast?).map
            (fun ev => (ev.route, ev.ok)) = some (Route.mainTree, false)) :=
  ⟨⟨by decide, by decide⟩,
    (by
      obtain ⟨s1, s2, s3, s4, s5, s6⟩ := spec_c3_thm ⟨("dest"), true⟩
        (PhotoOrganizer.initState [])
        ⟨("s"), ("a"), (".jpg"), true, some 1, ExifAccess.absent,
          ⟨2020, 1, 1, 0, 0, 0⟩, true, false⟩ 1 (by decide) (by decide) rfl (by decide) rfl
      exact ⟨s1, s2, s3, s4⟩)⟩

/-- C2 counterexample: the Streamlit implementation resolves destinations
with no collision loop: a run over two distinct healthy images that share
the base name `a.jpg` and the same date assigns both the SAME final path
`dest/2020/a.jpg` (the second copy overwrites the first), so the claimed
`_1`/`_2` suffixing and never-overwriting do not hold for every destination
resolution of the program. -/
theorem spec_c2_cx :
    ¬ (((Pics.organize_photos_core ⟨("dest"), true⟩
        [⟨("s1"), ("a"), (".jpg"), true, some 1, ExifAccess.absent,
          ⟨2020, 1, 1, 0, 0, 0⟩, false, false⟩,
         ⟨("s2"), ("a"), (".jpg"), true, some 2, ExifAccess.absent,
          ⟨2020, 1, 1, 0, 0, 0⟩, false, false⟩]).trace.map CopyEvent.dst).Nodup)
    ∧ (Pics.organize_photos_core ⟨("dest"), true⟩
        [⟨("s1"), ("a"), (".jpg"), true, some 1, ExifAccess.absent,
          ⟨2020, 1, 1, 0, 0, 0⟩, false, false⟩,
         ⟨("s2"), ("a"), (".jpg"), true, some 2, ExifAccess.absent,
          ⟨2020, 1, 1, 0, 0, 0⟩, false, false⟩]).trace.map CopyEvent.dst
        = [("dest/2020/a.jpg"), ("dest/2020/a.jpg")] := by
  decide

/-- C2 (amended): in the Tkinter implementation every destination
resolution appends `_1`, `_2`, ... before the extension, incrementing until
a free name is found, and never overwrites: the resolver always returns a
path unoccupied at resolution time, it returns exactly the first free
candidate, and over a whole run no two processed files are assigned the
same final path and no pre-existing destination file is ever chosen.  (The
Streamlit implementation has no collision loop and can assign one path
twice, see the counterexample.) -/
theorem spec_c2_thm :
    (∀ (fs : List String) (d b e : String), PhotoOrganizer.resolveName fs d b e ∉ fs)
    ∧ (∀ (fs : List String) (d b e : String) (k : Nat),
        (∀ j, j < k → joinPath d (PhotoOrganizer.candName b e j) ∈ fs) →
        joinPath d (PhotoOrganizer.candName b e k) ∉ fs →
        PhotoOrganizer.resolveName fs d b e = joinPath d (PhotoOrganizer.candName b e k))
    ∧ (∀ (cfg : Config) (initFs : List String) (files : List SrcFile),
        (((PhotoOrganizer.organize_photos_core cfg initFs files).1.trace.map
            CopyEvent.dst).Nodup
         ∧ ∀ ev ∈ (PhotoOrganizer.organize_photos_core cfg initFs files).1.trace,
            ev.dst ∉ initFs)) := by
  refine ⟨resolveName_not_mem, resolveName_finds, ?_⟩
  intro cfg initFs files
  have hinv := PhotoOrganizer.aux_runCore_nodup cfg initFs files
    (PhotoOrganizer.initState initFs)
    (by
      refine ⟨by simp [PhotoOrganizer.initState], by simp [PhotoOrganizer.initState], ?_⟩
      simp [PhotoOrganizer.initState])
  refine ⟨hinv.1, ?_⟩
  intro ev hev
  exact (hinv.2.1 ev.dst (List.mem_map_of_mem CopyEvent.dst hev)).2

/-- C2 witness: resolving `a.jpg` against an occupied `d/a.jpg` yields
`d/a_1.jpg`; against `d/a.jpg` and `d/a_1.jpg` it yields `d/a_2.jpg`. -/
theorem spec_c2_witness :
    ((∀ j, j < 1 → joinPath ("d") (PhotoOrganizer.candName ("a") (".jpg") j)
        ∈ [("d/a.jpg")])
      ∧ joinPath ("d") (PhotoOrganizer.candName ("a") (".jpg") 1) ∉ [("d/a.jpg")])
    ∧ PhotoOrganizer.resolveName [("d/a.jpg")] ("d") ("a") (".jpg")
        = joinPath ("d") (PhotoOrganizer.candName ("a") (".jpg") 1)
    ∧ joinPath ("d") (PhotoOrganizer.candName ("a") (".jpg") 1) = ("d/a_1.jpg")
    ∧ ((∀ j, j < 2 → joinPath ("d") (PhotoOrganizer.candName ("a") (".jpg") j)
        ∈ [("d/a.jpg"), ("d/a_1.jpg")])
      ∧ joinPath ("d") (PhotoOrganizer.candName ("a") (".jpg") 2)
          ∉ [("d/a.jpg"), ("d/a_1.jpg")])
    ∧ PhotoOrganizer.resolveName [("d/a.jpg"), ("d/a_1.jpg")] ("d") ("a") (".jpg")
        = joinPath ("d") (PhotoOrganizer.candName ("a") (".jpg") 2)
    ∧ joinPath ("d") (PhotoOrganizer.candName ("a") (".jpg") 2) = ("d/a_2.jpg") :=
  ⟨⟨by decide, by decide⟩,
   spec_c2_thm.2.1 [("d/a.jpg")] ("d") ("a") (".jpg") 1 (by decide) (by decide),
   by decide,
   ⟨by decide, by decide⟩,
   spec_c2_thm.2.1 [("d/a.jpg"), ("d/a_1.jpg")] ("d") ("a") (".jpg") 2
     (by decide) (by decide),
   by decide⟩

/-- C7: evaluating the Streamlit implementation at the failing input — a
run over two healthy-looking `.jpg` files whose hash computation fails —
shows the bug: the first hash-failed file IS copied into the main organized
tree (`files_copied = 1`, a mainTree copy), the failed-hash marker `None`
IS entered into the seen-set, the second hash-failed file is flagged as a
duplicate of it, and neither file reaches the error quarantine
(`files_moved_to_errors = 0`), while the hash errors are logged.  The
Tkinter implementation raises on a failed hash instead, as the claim
describes. -/
theorem spec_c7_bug :
    (Pics.organize_photos_core ⟨("dest"), false⟩
        [⟨("s"), ("a"), (".jpg"), true, none, ExifAccess.absent,
          ⟨2020, 1, 1, 0, 0, 0⟩, false, false⟩,
         ⟨("s"), ("b"), (".jpg"), true, none, ExifAccess.absent,
          ⟨2020, 1, 1, 0, 0, 0⟩, false, false⟩]).files_copied = 1
    ∧ (Pics.organize_photos_core ⟨("dest"), false⟩
        [⟨("s"), ("a"), (".jpg"), true, none, ExifAccess.absent,
          ⟨2020, 1, 1, 0, 0, 0⟩, false, false⟩,
         ⟨("s"), ("b"), (".jpg"), true, none, ExifAccess.absent,
          ⟨2020, 1, 1, 0, 0, 0⟩, false, false⟩]).files_moved_to_errors = 0
    ∧ (Pics.organize_photos_core ⟨("dest"), false⟩
        [⟨("s"), ("a"), (".jpg"), true, none, ExifAccess.absent,
          ⟨2020, 1, 1, 0, 0, 0⟩, false, false⟩,
         ⟨("s"), ("b"), (".jpg"), true, none, ExifAccess.absent,
          ⟨2020, 1, 1, 0, 0, 0⟩, false, false⟩]).seenOpt = [none]
    ∧ (Pics.organize_photos_core ⟨("dest"), false⟩
        [⟨("s"), ("a"), (".jpg"), true, none, ExifAccess.absent,
          ⟨2020, 1, 1, 0, 0, 0⟩, false, false⟩,
         ⟨("s"), ("b"), (".jpg"), true, none, ExifAccess.absent,
          ⟨2020, 1, 1, 0, 0, 0⟩, false, false⟩]).trace.map CopyEvent.route
        = [Route.mainTree, Route.suspectDup]
    ∧ (Pics.organize_photos_core ⟨("dest"), false⟩
        [⟨("s"), ("a"), (".jpg"), true, none, ExifAccess.absent,
          ⟨2020, 1, 1, 0, 0, 0⟩, false, false⟩,
         ⟨("s"), ("b"), (".jpg"), true, none, ExifAccess.absent,
          ⟨2020, 1, 1, 0, 0, 0⟩, false, false⟩]).errors
        = [ErrEntry.hashFail ("s/a.jpg"), ErrEntry.hashFail ("s/b.jpg")] := by
  decide

/-- C1: in both implementations the duplicate test happens before the
fingerprint is recorded, so a file whose fingerprint is not yet in the
run's seen-set is never flagged as a duplicate of itself: it is copied into
the main organized tree (main count up by one) and only then is its
fingerprint in the set; and any later file of the same run with the same
fingerprint is routed to the Suspect Duplicates folder and leaves the main
copied count unchanged. -/
theorem spec_c1 (cfg : Config) (initFs : List String) (A B : List SrcFile)
    (fi fj : SrcFile) (h : Nat)
    (hiImg : fi.ext ∈ ALL_IMAGE_EXTENSIONS)
    (hiConv : fi.ext ∈ CONVERTIBLE_IMAGE_EXTENSIONS → fi.convertOk = true)
    (hiHash : fi.hashOf = some h) (hiCopy : fi.copyFail = false)
    (hjImg : fj.ext ∈ ALL_IMAGE_EXTENSIONS)
    (hjConv : fj.ext ∈ CONVERTIBLE_IMAGE_EXTENSIONS → fj.convertOk = true)
    (hjHash : fj.hashOf = some h) (hjCopy : fj.copyFail = false)
    (hFresh : h ∉ (PhotoOrganizer.runCore cfg (PhotoOrganizer.initState initFs) A).seen)
    (hFreshP : (some h : Option Nat) ∉ (Pics.runCore cfg Pics.initState A).seenOpt) :
    C1ConclTk cfg initFs A B fi fj h ∧ C1ConclPics cfg A B fi fj h := by
  constructor
  · simp only [C1ConclTk]
    set stA := PhotoOrganizer.runCore cfg (PhotoOrganizer.initState initFs) A with hstA
    obtain ⟨m1, m2, m3, m4, m5⟩ :=
      PhotoOrganizer.aux_step_main cfg stA fi h hiImg hiConv hiHash hFresh hiCopy
    set stI := PhotoOrganizer.processFile cfg stA fi with hstI
    set stB := PhotoOrganizer.runCore cfg stI B with hstB
    have hmemI : h ∈ stI.seen := by rw [m2]; simp
    have hmemB : h ∈ stB.seen := PhotoOrganizer.aux_runCore_seen_mono cfg B stI hmemI
    obtain ⟨d1, d2, d3⟩ := PhotoOrganizer.aux_step_dup cfg stB fj h hjImg hjConv hjHash hmemB
    refine ⟨?_, m1, hmemI, ?_, d1⟩
    · rw [m5, aux_getLast_app]
      rfl
    · rw [d3, aux_getLast_app]
      simp [hjCopy]
  · simp only [C1ConclPics]
    set stA := Pics.runCore cfg Pics.initState A with hstA
    have hFreshP' : fi.hashOf ∉ stA.seenOpt := by rw [hiHash]; exact hFreshP
    obtain ⟨m1, m2, m3⟩ :=
      Pics.aux_pics_step_main cfg stA fi h hiImg hiConv hiHash hFreshP' hiCopy
    set stI := Pics.processFile cfg stA fi with hstI
    set stB := Pics.runCore cfg stI B with hstB
    have hmemI : (some h : Option Nat) ∈ stI.seenOpt := by rw [m2]; simp
    have hmemB : (some h : Option Nat) ∈ stB.seenOpt :=
      Pics.aux_pics_runCore_seen_mono cfg B stI hmemI
    have hNN : fj.hashOf ≠ none := by rw [hjHash]; simp
    have hDup : fj.hashOf ∈ stB.seenOpt := by rw [hjHash]; exact hmemB
    obtain ⟨d1, d2, d3⟩ := Pics.aux_pics_step_dup cfg stB fj hjImg hjConv hNN hDup hjCopy
    refine ⟨?_, m1, hmemI, ?_, d1⟩
    · rw [m3, aux_getLast_app]
      rfl
    · rw [d3, aux_getLast_app]
      rfl

/-- C1 witness: two concrete equal-fingerprint `.jpg` files in a fresh run
of each implementation. -/
theorem spec_c1_witness :
    ((1 : Nat) ∉ (PhotoOrganizer.runCore ⟨("dest"), true⟩
        (PhotoOrganizer.initState []) []).seen
      ∧ (some 1 : Option Nat) ∉ (Pics.runCore ⟨("dest"), true⟩ Pics.initState []).seenOpt)
    ∧ (C1ConclTk ⟨("dest"), true⟩ [] [] []
        ⟨("s"), ("a"), (".jpg"), true, some 1, ExifAccess.absent,
          ⟨2020, 1, 1, 0, 0, 0⟩, false, false⟩
        ⟨("s"), ("b"), (".jpg"), true, some 1, ExifAccess.absent,
          ⟨2020, 1, 1, 0, 0, 0⟩, false, false⟩ 1
      ∧ C1ConclPics ⟨("dest"), true⟩ [] []
        ⟨("s"), ("a"), (".jpg"), true, some 1, ExifAccess.absent,
          ⟨2020, 1, 1, 0, 0, 0⟩, false, false⟩
        ⟨("s"), ("b"), (".jpg"), true, some 1, ExifAccess.absent,
          ⟨2020, 1, 1, 0, 0, 0⟩, false, false⟩ 1) :=
  ⟨⟨by decide, by decide⟩,
   spec_c1 ⟨("dest"), true⟩ [] [] []
     ⟨("s"), ("a"), (".jpg"), true, some 1, ExifAccess.absent,
       ⟨2020, 1, 1, 0, 0, 0⟩, false, false⟩
     ⟨("s"), ("b"), (".jpg"), true, some 1, ExifAccess.absent,
       ⟨2020, 1, 1, 0, 0, 0⟩, false, false⟩ 1
     (by decide) (by decide) rfl rfl (by decide) (by decide) rfl rfl
     (by decide) (by decide)⟩

/-- C4: a Tkinter run over a batch in which exactly one file fails (its
conversion is rejected) still fully processes every other file; the failing
file is copied to the Errors folder (the only Errors-routed copy of the
run) and the error-folder counter ends at exactly 1; the failure appends
its entries to the run's ordered error list; and the run-end summary
report is produced unconditionally from the final counters. -/
theorem spec_c4 (cfg : Config) (initFs : List String) (A B : List SrcFile)
    (fbad : SrcFile)
    (hbadC : fbad.ext ∈ CONVERTIBLE_IMAGE_EXTENSIONS)
    (hbadOk : fbad.convertOk = false)
    (hbadErr : fbad.errCopyFail = false)
    (hgood : ∀ g ∈ A ++ B, goodFile g) :
    C4Concl cfg initFs A B fbad := by
  have hgA : ∀ g ∈ A, goodFile g := fun g hgm => hgood g (List.mem_append_left B hgm)
  have hgB : ∀ g ∈ B, goodFile g := fun g hgm => hgood g (List.mem_append_right A hgm)
  obtain ⟨a1, a2, evsA, atr, alen, aprop⟩ :=
    PhotoOrganizer.aux_runCore_good cfg A hgA (PhotoOrganizer.initState initFs)
  set stA := PhotoOrganizer.runCore cfg (PhotoOrganizer.initState initFs) A with hstA
  obtain ⟨c1, c2, c3, c4, c5⟩ :=
    PhotoOrganizer.aux_step_conv_fail cfg stA fbad hbadC hbadOk hbadErr
  set stI := PhotoOrganizer.processFile cfg stA fbad with hstI
  obtain ⟨b1, b2, evsB, btr, blen, bprop⟩ := PhotoOrganizer.aux_runCore_good cfg B hgB stI
  set F := PhotoOrganizer.runCore cfg stI B with hFdef
  have hsplit : PhotoOrganizer.runCore cfg (PhotoOrganizer.initState initFs)
      (A ++ fbad :: B) = F := by
    rw [PhotoOrganizer.aux_runCore_append, ← hstA, PhotoOrganizer.aux_runCore_cons,
      ← hstI, hFdef]
  have htraceF : F.trace = evsA ++
      (⟨Route.errorsQ, filePath fbad,
        PhotoOrganizer.resolveName stA.destFs (errorsDir cfg) fbad.stem fbad.ext, true⟩
        :: evsB) := by
    rw [btr, c3, atr]
    simp [PhotoOrganizer.initState]
  have hfmte : F.files_moved_to_errors = 1 := by
    rw [b2, c1, a2]
    simp [PhotoOrganizer.initState]
  have herrF : F.errors =
      [ErrEntry.convFail (filePath fbad), ErrEntry.procErrorCopied (filePath fbad)] := by
    rw [b1, c2, a1]
    simp [PhotoOrganizer.initState]
  have hprocF : F.processed = A.length + B.length + 1 := by
    rw [← hsplit, PhotoOrganizer.aux_runCore_processed]
    simp [PhotoOrganizer.initState]
    omega
  have hlenF : F.trace.length = A.length + B.length + 1 := by
    rw [htraceF]
    simp [alen, blen]
    omega
  simp only [C4Concl, PhotoOrganizer.organize_photos_core, hsplit]
  refine ⟨hfmte, hprocF, hlenF, ?_, ?_, herrF, trivial,
    by simp [PhotoOrganizer.mkReport, hfmte]⟩
  · rw [htraceF, List.get?_append_right (by omega : evsA.length ≤ A.length)]
    rw [alen]
    simp
  · intro i hi ev hev
    rw [htraceF] at hev
    by_cases hlt : i < A.length
    · rw [List.get?_append (by omega : i < evsA.length)] at hev
      exact aprop ev (List.get?_mem hev)
    · have hge : evsA.length ≤ i := by omega
      rw [List.get?_append_right hge] at hev
      have hpos : 0 < i - evsA.length := by omega
      obtain ⟨j, hj⟩ : ∃ j, i - evsA.length = j + 1 := ⟨i - evsA.length - 1, by omega⟩
      rw [hj] at hev
      simp only [List.get?_cons_succ] at hev
      exact bprop ev (List.get?_mem hev)

/-- C4 witness: a concrete batch of five files in which only the third (a
corrupt `.cr2`) fails conversion. -/
theorem spec_c4_witness :
    (((".cr2") : String) ∈ CONVERTIBLE_IMAGE_EXTENSIONS
      ∧ (∀ g ∈ ([⟨("s"), ("f1"), (".jpg"), true, some 1, ExifAccess.absent,
            ⟨2020, 1, 1, 0, 0, 0⟩, false, false⟩,
          ⟨("s"), ("f2"), (".jpg"), true, some 2, ExifAccess.absent,
            ⟨2020, 1, 1, 0, 0, 0⟩, false, false⟩] ++
          [⟨("s"), ("f4"), (".mp4"), true, none, ExifAccess.absent,
            ⟨2020, 1, 1, 0, 0, 0⟩, false, false⟩,
          ⟨("s"), ("f5"), (".txt"), true, none, ExifAccess.absent,
            ⟨2020, 1, 1, 0, 0, 0⟩, false, false⟩] : List SrcFile), goodFile g))
    ∧ C4Concl ⟨("dest"), true⟩ []
        [⟨("s"), ("f1"), (".jpg"), true, some 1, ExifAccess.absent,
          ⟨2020, 1, 1, 0, 0, 0⟩, false, false⟩,
         ⟨("s"), ("f2"), (".jpg"), true, some 2, ExifAccess.absent,
          ⟨2020, 1, 1, 0, 0, 0⟩, false, false⟩]
        [⟨("s"), ("f4"), (".mp4"), true, none, ExifAccess.absent,
          ⟨2020, 1, 1, 0, 0, 0⟩, false, false⟩,
         ⟨("s"), ("f5"), (".txt"), true, none, ExifAccess.absent,
          ⟨2020, 1, 1, 0, 0, 0⟩, false, false⟩]
        ⟨("s"), ("f3"), (".cr2"), false, none, ExifAccess.absent,
          ⟨2020, 1, 1, 0, 0, 0⟩, false, false⟩ :=
  ⟨⟨by decide, by decide⟩,
   spec_c4 ⟨("dest"), true⟩ []
     [⟨("s"), ("f1"), (".jpg"), true, some 1, ExifAccess.absent,
       ⟨2020, 1, 1, 0, 0, 0⟩, false, false⟩,
      ⟨("s"), ("f2"), (".jpg"), true, some 2, ExifAccess.absent,
       ⟨2020, 1, 1, 0, 0, 0⟩, false, false⟩]
     [⟨("s"), ("f4"), (".mp4"), true, none, ExifAccess.absent,
       ⟨2020, 1, 1, 0, 0, 0⟩, false, false⟩,
      ⟨("s"), ("f5"), (".txt"), true, none, ExifAccess.absent,
       ⟨2020, 1, 1, 0, 0, 0⟩, false, false⟩]
     ⟨("s"), ("f3"), (".cr2"), false, none, ExifAccess.absent,
       ⟨2020, 1, 1, 0, 0, 0⟩, false, false⟩
     (by decide) rfl rfl (by decide)⟩
